import Mathlib

/-!
Verification of the HYPHA network core: unified identity derivation
(`hypha_sdk/seed_manager.py`), the JSON message protocol
(`hypha_sdk/protocol.py`, `src/messaging/protocol.py`), the signed transport
(`hypha_sdk/transport.py`, `src/messaging/transport.py`), the Kademlia-backed
peer directory (`hypha_sdk/discovery.py`) and the task coordinator
(`src/messaging/handler.py`).

Strings and byte strings are modelled as lists of natural-number code points
(`Str`).  The wire format produced by Python's `json.dumps` with its default
arguments (separators `", "` and `": "`, `ensure_ascii=True`, insertion-ordered
keys) is embedded by `dumpJson`; `json.loads` is embedded by `parseLoads`.
JSON numbers are modelled as integers (the protocol's timestamps, deadlines and
ids are integers and strings; exact binary floating point is out of scope), and
string code points are kept below 2^16 so that no surrogate pairs arise in the
`\uXXXX` escapes.
-/

namespace Hypha

/-- A Python `str`/`bytes` value: a list of code points / byte values. -/
abbrev Str := List Nat

/-- A JSON value as handled by Python's `json` module, with numbers restricted
to integers (floats are out of scope of this embedding).  Objects keep their
insertion order, as Python dicts do. -/
inductive Json where
  | null : Json
  | bool (b : Bool) : Json
  | num (n : Int) : Json
  | str (s : Str) : Json
  | arr (items : List Json) : Json
  | obj (entries : List (Str × Json)) : Json

mutual
/-- Structural equality test on `Json` (Python `==` on decoded values). -/
def jeq : Json → Json → Bool
  | .null, .null => true
  | .bool a, .bool b => a == b
  | .num a, .num b => a == b
  | .str a, .str b => a == b
  | .arr a, .arr b => jeqList a b
  | .obj a, .obj b => jeqEntries a b
  | _, _ => false
/-- `jeq` on item lists. -/
def jeqList : List Json → List Json → Bool
  | [], [] => true
  | a :: l1, b :: l2 => jeq a b && jeqList l1 l2
  | _, _ => false
/-- `jeq` on member lists. -/
def jeqEntries : List (Str × Json) → List (Str × Json) → Bool
  | [], [] => true
  | (k1, v1) :: l1, (k2, v2) :: l2 => k1 == k2 && jeq v1 v2 && jeqEntries l1 l2
  | _, _ => false
end

mutual
theorem jeq_iff : ∀ a b : Json, jeq a b = true ↔ a = b
  | .null, b => by cases b <;> simp [jeq]
  | .bool x, b => by cases b <;> simp [jeq]
  | .num x, b => by cases b <;> simp [jeq]
  | .str x, b => by cases b <;> simp [jeq]
  | .arr l, b => by cases b <;> simp [jeq, jeqList_iff l]
  | .obj l, b => by cases b <;> simp [jeq, jeqEntries_iff l]
theorem jeqList_iff : ∀ a b : List Json, jeqList a b = true ↔ a = b
  | [], b => by cases b <;> simp [jeqList]
  | x :: l1, b => by
      cases b <;> simp [jeqList, jeq_iff x, jeqList_iff l1]
theorem jeqEntries_iff : ∀ a b : List (Str × Json), jeqEntries a b = true ↔ a = b
  | [], b => by cases b <;> simp [jeqEntries]
  | (k, v) :: l1, b => by
      cases b with
      | nil => simp [jeqEntries]
      | cons hd l2 =>
          obtain ⟨k2, v2⟩ := hd
          simp [jeqEntries, jeq_iff v, jeqEntries_iff l1, and_assoc]
end

instance : DecidableEq Json := fun a b => decidable_of_iff _ (jeq_iff a b)

/-- Hex digit character for `n < 16`, lowercase, as Python's `'%x'`. -/
def toHexCh (n : Nat) : Nat :=
  if n < 10 then 48 + n else 87 + n

/-- One code point, escaped as Python's `json.dumps` does with
`ensure_ascii=True`: `\"`, `\\`, the short escapes `\b \t \n \f \r`, and
`\uXXXX` for every other point below 0x20 or above 0x7E. -/
def escapeCp (c : Nat) : Str :=
  if c = 34 then [92, 34]
  else if c = 92 then [92, 92]
  else if c = 8 then [92, 98]
  else if c = 9 then [92, 116]
  else if c = 10 then [92, 110]
  else if c = 12 then [92, 102]
  else if c = 13 then [92, 114]
  else if c < 32 ∨ 126 < c then
    [92, 117, toHexCh (c / 4096 % 16), toHexCh (c / 256 % 16),
     toHexCh (c / 16 % 16), toHexCh (c % 16)]
  else [c]

/-- JSON-escape a whole string body. -/
def escStr : Str → Str
  | [] => []
  | c :: cs => escapeCp c ++ escStr cs

/-- Decimal digit characters of `n`, as Python's `repr` of a nonnegative int. -/
def natToDec (n : Nat) : Str :=
  if n < 10 then [48 + n]
  else natToDec (n / 10) ++ [48 + n % 10]
termination_by n
decreasing_by exact Nat.div_lt_self (by omega) (by omega)

/-- Decimal characters of an integer: optional minus sign, then digits. -/
def intToDec (i : Int) : Str :=
  if i < 0 then 45 :: natToDec i.natAbs else natToDec i.natAbs

mutual
/-- Python's `json.dumps` with default arguments, on the `Json` model:
item separator `", "`, key separator `": "`, `ensure_ascii` escaping. -/
def dumpJson : Json → Str
  | .null => [110, 117, 108, 108]
  | .bool true => [116, 114, 117, 101]
  | .bool false => [102, 97, 108, 115, 101]
  | .num n => intToDec n
  | .str s => 34 :: (escStr s ++ [34])
  | .arr items => 91 :: (dumpItems items ++ [93])
  | .obj entries => 123 :: (dumpEntries entries ++ [125])
/-- The comma-joined items of an array. -/
def dumpItems : List Json → Str
  | [] => []
  | v :: vs => dumpJson v ++ dumpItemsRest vs
/-- `", "`-separated continuation of an array's items. -/
def dumpItemsRest : List Json → Str
  | [] => []
  | v :: vs => 44 :: 32 :: (dumpJson v ++ dumpItemsRest vs)
/-- The comma-joined `"key": value` members of an object. -/
def dumpEntries : List (Str × Json) → Str
  | [] => []
  | (k, v) :: es =>
      (34 :: (escStr k ++ [34])) ++ (58 :: 32 :: (dumpJson v ++ dumpEntriesRest es))
/-- `", "`-separated continuation of an object's members. -/
def dumpEntriesRest : List (Str × Json) → Str
  | [] => []
  | (k, v) :: es =>
      44 :: 32 :: ((34 :: (escStr k ++ [34])) ++ (58 :: 32 :: (dumpJson v ++ dumpEntriesRest es)))
end

mutual
/-- Fuel measure for the parser: enough fuel to reparse a dumped value. -/
def jsize : Json → Nat
  | .null => 1
  | .bool _ => 1
  | .num _ => 1
  | .str _ => 1
  | .arr items => 1 + lsize items
  | .obj entries => 1 + esize entries
/-- Fuel measure for an array's item list. -/
def lsize : List Json → Nat
  | [] => 0
  | v :: vs => 1 + jsize v + lsize vs
/-- Fuel measure for an object's member list. -/
def esize : List (Str × Json) → Nat
  | [] => 0
  | (_, v) :: es => 1 + jsize v + esize es
end

mutual
/-- Well-formed JSON: every string code point fits in one UTF-16 unit, so
`ensure_ascii` escaping never needs a surrogate pair. -/
def wfJson : Json → Bool
  | .null => true
  | .bool _ => true
  | .num _ => true
  | .str s => s.all (· < 65536)
  | .arr items => wfList items
  | .obj es => wfEntries es
/-- `wfJson` over an array's items. -/
def wfList : List Json → Bool
  | [] => true
  | v :: vs => wfJson v && wfList vs
/-- `wfJson` over an object's members (keys included). -/
def wfEntries : List (Str × Json) → Bool
  | [] => true
  | (k, v) :: es => k.all (· < 65536) && wfJson v && wfEntries es
end

/-- The whitespace characters `json.loads` skips: space, tab, LF, CR. -/
def isWsCp (c : Nat) : Bool := c == 32 || c == 9 || c == 10 || c == 13

/-- Skip leading JSON whitespace. -/
def skipWs : Str → Str
  | [] => []
  | c :: r => if isWsCp c then skipWs r else c :: r

/-- ASCII decimal digit test. -/
def isDigitCp (c : Nat) : Bool := 48 ≤ c && c ≤ 57

/-- Split off the longest leading run of decimal digits. -/
def takeDigits : Str → Str × Str
  | [] => ([], [])
  | c :: r =>
      if isDigitCp c then
        let p := takeDigits r
        (c :: p.1, p.2)
      else ([], c :: r)

/-- Numeric value of a digit run. -/
def digitsVal (ds : Str) : Nat :=
  ds.foldl (fun a c => a * 10 + (c - 48)) 0

/-- Parse an optionally-signed decimal integer (the integer fragment of the
JSON number grammar; this model has no float literals). -/
def parseNumber (s : Str) : Option (Int × Str) :=
  match s with
  | [] => none
  | c :: r =>
      if c = 45 then
        let p := takeDigits r
        if p.1.isEmpty then none else some (-(digitsVal p.1 : Int), p.2)
      else
        let p := takeDigits (c :: r)
        if p.1.isEmpty then none else some ((digitsVal p.1 : Int), p.2)

/-- Value of a hex digit character, upper or lower case. -/
def hexValCp (c : Nat) : Option Nat :=
  if 48 ≤ c ∧ c ≤ 57 then some (c - 48)
  else if 97 ≤ c ∧ c ≤ 102 then some (c - 87)
  else if 65 ≤ c ∧ c ≤ 70 then some (c - 55)
  else none

/-- The two-character escapes `json.loads` accepts (besides `\uXXXX`). -/
def unescapeCp (e : Nat) : Option Nat :=
  if e = 34 then some 34
  else if e = 92 then some 92
  else if e = 47 then some 47
  else if e = 98 then some 8
  else if e = 102 then some 12
  else if e = 110 then some 10
  else if e = 114 then some 13
  else if e = 116 then some 9
  else none

/-- Parse a JSON string body after the opening quote, undoing escapes; returns
the decoded code points and the remainder after the closing quote.  (This model
is lenient about raw control characters, which `dumps` never emits.) -/
def parseStrBody : Str → Option (Str × Str)
  | [] => none
  | c :: r =>
      if c = 34 then some ([], r)
      else if c = 92 then
        match r with
        | [] => none
        | e :: r2 =>
            if e = 117 then
              match r2 with
              | a :: b :: c2 :: d :: r3 =>
                  match hexValCp a, hexValCp b, hexValCp c2, hexValCp d with
                  | some va, some vb, some vc, some vd =>
                      match parseStrBody r3 with
                      | some (s2, r4) =>
                          some ((((va * 16 + vb) * 16 + vc) * 16 + vd) :: s2, r4)
                      | none => none
                  | _, _, _, _ => none
              | _ => none
            else
              match unescapeCp e with
              | some u =>
                  match parseStrBody r2 with
                  | some (s2, r4) => some (u :: s2, r4)
                  | none => none
              | none => none
      else
        match parseStrBody r with
        | some (s2, r4) => some (c :: s2, r4)
        | none => none

mutual
/-- Recursive-descent JSON value parser, the model of `json.loads`' scanner.
`fuel` only bounds recursion depth; `parseLoads` supplies enough for any input. -/
def parseVal : Nat → Str → Option (Json × Str)
  | 0, _ => none
  | fuel + 1, s =>
    match skipWs s with
    | [] => none
    | c :: r =>
      if c = 110 then
        match r with
        | 117 :: 108 :: 108 :: r2 => some (.null, r2)
        | _ => none
      else if c = 116 then
        match r with
        | 114 :: 117 :: 101 :: r2 => some (.bool true, r2)
        | _ => none
      else if c = 102 then
        match r with
        | 97 :: 108 :: 115 :: 101 :: r2 => some (.bool false, r2)
        | _ => none
      else if c = 34 then
        match parseStrBody r with
        | some (s2, r2) => some (.str s2, r2)
        | none => none
      else if c = 91 then
        match skipWs r with
        | [] => none
        | d :: r2 =>
            if d = 93 then some (.arr [], r2)
            else
              match parseItems fuel (d :: r2) with
              | some (vs, r3) => some (.arr vs, r3)
              | none => none
      else if c = 123 then
        match skipWs r with
        | [] => none
        | d :: r2 =>
            if d = 125 then some (.obj [], r2)
            else
              match parseEntries fuel (d :: r2) with
              | some (es, r3) => some (.obj es, r3)
              | none => none
      else
        match parseNumber (c :: r) with
        | some (n, r2) => some (.num n, r2)
        | none => none
/-- One-or-more comma-separated array items, up to and including `]`. -/
def parseItems : Nat → Str → Option (List Json × Str)
  | 0, _ => none
  | fuel + 1, s =>
    match parseVal fuel s with
    | none => none
    | some (v, r) =>
      match skipWs r with
      | [] => none
      | d :: r2 =>
          if d = 44 then
            match parseItems fuel r2 with
            | some (vs, r3) => some (v :: vs, r3)
            | none => none
          else if d = 93 then some ([v], r2)
          else none
/-- One-or-more comma-separated object members, up to and including the
closing brace. -/
def parseEntries : Nat → Str → Option (List (Str × Json) × Str)
  | 0, _ => none
  | fuel + 1, s =>
    match skipWs s with
    | [] => none
    | c :: r =>
      if c = 34 then
        match parseStrBody r with
        | none => none
        | some (k, r1) =>
          match skipWs r1 with
          | [] => none
          | d :: r2 =>
              if d = 58 then
                match parseVal fuel r2 with
                | none => none
                | some (v, r3) =>
                  match skipWs r3 with
                  | [] => none
                  | e2 :: r4 =>
                      if e2 = 44 then
                        match parseEntries fuel r4 with
                        | some (es, r5) => some ((k, v) :: es, r5)
                        | none => none
                      else if e2 = 125 then some ([(k, v)], r4)
                      else none
              else none
      else none
end

/-- A remainder that cannot extend a just-parsed number: empty or starting
with a non-digit.  Every delimiter `dumpJson` emits after a value qualifies. -/
def noDigitHead : Str → Bool
  | [] => true
  | c :: _ => !isDigitCp c

/-- The characters a dumped JSON value can start with. -/
def goodHead (c : Nat) : Bool :=
  c == 110 || c == 116 || c == 102 || c == 34 || c == 91 || c == 123 ||
  c == 45 || isDigitCp c

/-- The model of `json.loads`: parse one value, allow trailing whitespace only. -/
def parseLoads (s : Str) : Option Json :=
  match parseVal (s.length + 1) s with
  | some (v, r) => if skipWs r = [] then some v else none
  | none => none

/-! ### Hex encoding of signatures (`bytes.hex` / `bytes.fromhex`) -/

/-- Python's `bytes.hex()`: two lowercase hex digits per byte. -/
def bytesToHex : Str → Str
  | [] => []
  | b :: bs => toHexCh (b / 16 % 16) :: toHexCh (b % 16) :: bytesToHex bs

/-- Python's `bytes.fromhex()` on a spaceless string: pairs of hex digits,
`none` (an exception in Python) on odd length or a non-hex character. -/
def hexToBytes : Str → Option Str
  | [] => some []
  | [_] => none
  | h :: l :: rest =>
      match hexValCp h, hexValCp l with
      | some a, some b =>
          match hexToBytes rest with
          | some bs => some ((a * 16 + b) :: bs)
          | none => none
      | _, _ => none

/-! ### The message envelope (`protocol.py` `Message`)

A `Message` mirrors the Python dataclass: six fields, serialized by
`json.dumps(asdict(self))` in declaration order, deserialized by
`cls(**json.loads(s))`.  Field values are arbitrary JSON (the dataclass does
not validate them); a missing signature is Python `None`, i.e. JSON `null`. -/

structure Message where
  type : Json
  sender : Json
  recipient : Json
  payload : Json
  timestamp : Json
  signature : Json
deriving DecidableEq

/-- The field name `"type"`. -/
def kType : Str := [116, 121, 112, 101]
/-- The field name `"sender"`. -/
def kSender : Str := [115, 101, 110, 100, 101, 114]
/-- The field name `"recipient"`. -/
def kRecipient : Str := [114, 101, 99, 105, 112, 105, 101, 110, 116]
/-- The field name `"payload"`. -/
def kPayload : Str := [112, 97, 121, 108, 111, 97, 100]
/-- The field name `"timestamp"`. -/
def kTimestamp : Str := [116, 105, 109, 101, 115, 116, 97, 109, 112]
/-- The field name `"signature"`. -/
def kSignature : Str := [115, 105, 103, 110, 97, 116, 117, 114, 101]

/-- `asdict(message)`: the six fields in dataclass declaration order. -/
def msgEntries (m : Message) : List (Str × Json) :=
  [(kType, m.type), (kSender, m.sender), (kRecipient, m.recipient),
   (kPayload, m.payload), (kTimestamp, m.timestamp), (kSignature, m.signature)]

/-- `Message.to_json` / `Message.to_bytes`: `json.dumps(asdict(self))`,
UTF-8 encoded (the output is pure ASCII, so bytes equal code points). -/
def toBytes (m : Message) : Str := dumpJson (.obj (msgEntries m))

/-- Well-formedness of a message: all six fields are well-formed JSON. -/
def wfMessage (m : Message) : Bool :=
  wfJson m.type && wfJson m.sender && wfJson m.recipient &&
  wfJson m.payload && wfJson m.timestamp && wfJson m.signature

/-- Python dict lookup on a decoded JSON object (later duplicate keys win,
as in a dict built by `json.loads`). -/
def dlookup (k : Str) (es : List (Str × Json)) : Option Json :=
  es.foldl (fun acc kv => if kv.1 = k then some kv.2 else acc) none

/-- The accepted keyword names of the `Message` dataclass constructor. -/
def msgKeys : List Str :=
  [kType, kSender, kRecipient, kPayload, kTimestamp, kSignature]

/-- `Message.from_json` / `from_bytes`: `cls(**json.loads(s))`.  Fails (a
`TypeError` in Python, modelled as `none`) unless the decoded value is an
object whose keys are all dataclass fields and include the five required
ones; `signature` defaults to `None`. -/
def fromBytes (s : Str) : Option Message :=
  match parseLoads s with
  | some (.obj es) =>
      if es.all (fun kv => msgKeys.contains kv.1) then
        match dlookup kType es, dlookup kSender es, dlookup kRecipient es,
              dlookup kPayload es, dlookup kTimestamp es with
        | some t, some sd, some rc, some p, some ts =>
            some ⟨t, sd, rc, p, ts, (dlookup kSignature es).getD .null⟩
        | _, _, _, _, _ => none
      else none
  | _ => none

/-! ### Signed transport (`transport.py` `MessageTransport`)

The Ed25519 primitives live in PyNaCl, outside this repository, and are
abstracted as explicit function parameters: `eds` is `signing_key.sign`
restricted to the detached 64-byte signature, and `edv b s` is
`verify_key.verify(b, s)` succeeding.  The theorems assume only the
correctness and unforgeability properties of that interface. -/

/-- The signature-stripped copy both transports verify against (and the
pure-Python one also signs): the same message with `signature=None`. -/
def stripSig (m : Message) : Message :=
  { m with signature := .null }

/-- `hypha_sdk/transport.py` `sign_message`: sign the canonical bytes of the
signature-stripped copy, store the lowercase hex signature on the message. -/
def sign_message (eds : Str → Str) (m : Message) : Message :=
  { m with signature := .str (bytesToHex (eds (toBytes (stripSig m)))) }

/-- `src/messaging/transport.py` `sign_message`: sign `message.to_bytes()`
as-is (the current signature field included), then store the hex signature. -/
def legacy_sign_message (eds : Str → Str) (m : Message) : Message :=
  { m with signature := .str (bytesToHex (eds (toBytes m))) }

/-- Python truthiness of a decoded JSON value (`if not message.signature`). -/
def jfalsy : Json → Bool
  | .null => true
  | .bool b => !b
  | .num n => n == 0
  | .str s => s.isEmpty
  | .arr items => items.isEmpty
  | .obj es => es.isEmpty

/-- `bytes.fromhex(message.signature)`: raises (modelled as `.error`) when the
signature is not a string or not valid hex. -/
def fromHexSig : Json → Except Unit Str
  | .str s =>
      match hexToBytes s with
      | some bs => .ok bs
      | none => .error ()
  | _ => .error ()

/-- The body of `verify_message`'s `try` block: decode the hex signature and
check it against the canonical bytes; `verify` raises on a bad signature. -/
def verifyAttempt (edv : Str → Str → Bool) (m : Message) : Except Unit Bool :=
  match fromHexSig m.signature with
  | .error e => .error e
  | .ok sb => if edv (toBytes (stripSig m)) sb then .ok true else .error ()

/-- `verify_message`: false on a falsy signature, otherwise the `try` body
with every exception caught and turned into `False`. -/
def verify_message (edv : Str → Str → Bool) (m : Message) : Bool :=
  if jfalsy m.signature then false
  else
    match verifyAttempt edv m with
    | .ok b => b
    | .error _ => false

/-! ### Identity derivation (`seed_manager.py` `SeedManager`)

SHA-256, the Ed25519 public-key map and the EVM address derivation live in
`hashlib`, PyNaCl and `eth_account`; they are abstracted as function
parameters `sha256`, `edPub` and `evmAddr`. -/

/-- The derived identity state of a constructed `SeedManager`. -/
structure SeedManager where
  masterSeed : Str
  p2pSeed : Str
  nodeId : Str
  walletSeed : Str
  walletAddress : Str

/-- The domain-separation tag `b"hypha.p2p"`. -/
def tagP2p : Str := [104, 121, 112, 104, 97, 46, 112, 50, 112]
/-- The domain-separation tag `b"hypha.wallet"`. -/
def tagWallet : Str := [104, 121, 112, 104, 97, 46, 119, 97, 108, 108, 101, 116]

/-- `SeedManager.__init__` on an explicitly supplied seed: reject any length
other than 32, then derive the P2P seed, node id and wallet seed by
domain-separated hashing (`wallet_address` is the property computed from the
wallet seed). -/
def mkSeedManager (sha256 edPub evmAddr : Str → Str) (seedBytes : Str) :
    Except String SeedManager :=
  if seedBytes.length ≠ 32 then .error "Seed must be exactly 32 bytes"
  else
    let p2p := sha256 (seedBytes ++ tagP2p)
    let wseed := sha256 (seedBytes ++ tagWallet)
    .ok { masterSeed := seedBytes, p2pSeed := p2p, nodeId := edPub p2p,
          walletSeed := wseed, walletAddress := evmAddr wseed }

/-! ### Peer directory (`discovery.py` `Discovery`)

The Kademlia DHT is modelled as the key-value map it implements:
`server.get`/`server.set` become lookups and updates in a `Store`. -/

/-- The DHT's key-value state, keys and values both strings. -/
def Store := Str → Option Str

/-- `server.set key value`. -/
def updateStore (st : Store) (k v : Str) : Store :=
  fun x => if x = k then some v else st x

/-- A DHT with no stored values. -/
def emptyStore : Store := fun _ => none

/-- `f"hypha:{topic}"`. -/
def dhtKey (topic : Str) : Str := [104, 121, 112, 104, 97, 58] ++ topic

/-- The listing field name `"agent_id"`. -/
def kAgentId : Str := [97, 103, 101, 110, 116, 95, 105, 100]

/-- `d.get(k)` on a dict decoded from JSON: `none` is Python `None`, which a
stored JSON `null` also decodes to. -/
def dGet (es : List (Str × Json)) (k : Str) : Option Json :=
  match dlookup k es with
  | some .null => none
  | v => v

/-- `p.get("agent_id")` on a decoded array element: `none` models the
`AttributeError` raised when the element is not a dict. -/
def pyGet (p : Json) (k : Str) : Option (Option Json) :=
  match p with
  | .obj es => some (dGet es k)
  | _ => none

/-- The list comprehension dropping entries whose `agent_id` equals ours;
`none` models the uncaught `AttributeError` on a non-dict element. -/
def filterPeers : List Json → Option Json → Option (List Json)
  | [], _ => some []
  | p :: ps, myId =>
      match pyGet p kAgentId with
      | none => none
      | some pid =>
          match filterPeers ps myId with
          | none => none
          | some rest => some (if pid = myId then rest else p :: rest)

/-- `Discovery.announce`: read the topic key, decode the peer list (decode
errors mean an empty list), drop any entry with our `agent_id`, append our
listing, write the list back.  `none` models the uncaught exceptions on a
stored non-list value or non-dict element. -/
def announceStep (st : Store) (topic : Str) (info : List (Str × Json)) :
    Option Store :=
  let key := dhtKey topic
  let peersOpt : Option (List Json) :=
    match st key with
    | none => some []
    | some raw =>
        if raw.isEmpty then some []
        else
          match parseLoads raw with
          | none => some []
          | some (.arr items) => some items
          | some _ => none
  match peersOpt with
  | none => none
  | some peers =>
      match filterPeers peers (dGet info kAgentId) with
      | none => none
      | some kept =>
          some (updateStore st key (dumpJson (.arr (kept ++ [Json.obj info]))))

/-- A sequence of `announce` calls against an initially empty DHT. -/
def runAnnounces (ops : List (Str × List (Str × Json))) : Option Store :=
  ops.foldl
    (fun acc op =>
      match acc with
      | none => none
      | some st => announceStep st op.1 op.2)
    (some emptyStore)

/-- `Discovery.discover_peers`: read the topic key and decode it; an absent
key or a decode failure yields an empty list, never an error. -/
def discover_peers (st : Store) (topic : Str) : Json :=
  match st (dhtKey topic) with
  | none => .arr []
  | some raw =>
      if raw.isEmpty then .arr []
      else
        match parseLoads raw with
        | some v => v
        | none => .arr []

/-! ### Task coordinator (`handler.py` `MessageHandler`)

`active_tasks` is the escrow-id-keyed record table; user callbacks are
arbitrary functions that may raise (`Except.error`).  The handlers below
return the new table together with what the callback produced. -/

/-- One `active_tasks[escrow_id]` record.  Optional fields model dict keys
added only by later protocol events. -/
structure TaskRec where
  sender : Json
  description : Json
  amount : Json
  deadline : Json
  status : String
  result : Option Json := none
  txHash : Option Json := none
  estCompletion : Option Json := none
deriving DecidableEq

/-- The `active_tasks` dict. -/
def TaskMap := Str → Option TaskRec

/-- `active_tasks[escrow_id] = rec`. -/
def updTasks (tasks : TaskMap) (k : Str) (r : TaskRec) : TaskMap :=
  fun x => if x = k then some r else tasks x

/-- `TaskRequestMessage`'s typed payload. -/
structure TaskRequestP where
  escrowId : Str
  taskDescription : Json
  amount : Json
  deadline : Json
  requirements : Option Json := none

/-- `TaskResponseMessage`'s typed payload. -/
structure TaskResponseP where
  escrowId : Str
  accepted : Bool
  estCompletion : Option Json := none
  message : Option Json := none

/-- `TaskCompleteMessage`'s typed payload. -/
structure TaskCompleteP where
  escrowId : Str
  result : Json
  completionProof : Option Json := none

/-- `PaymentNotification`'s typed payload. -/
structure PaymentP where
  escrowId : Str
  amount : Json
  txHash : Json
  fromAddr : Json
  toAddr : Json

/-- Whether an optional callback, when invoked, raised (the handler catches
and logs the exception; this flag is the logged outcome). -/
def cbRaised {α : Type} (cb : Option (α → Except Unit Unit)) (x : α) : Bool :=
  match cb with
  | none => false
  | some f =>
      match f x with
      | .ok _ => false
      | .error _ => true

/-- `handle_task_request`: store a fresh `pending` record (overwriting any
existing one), then run the request callback; its boolean decides
`accepted`/`rejected`, an exception leaves `pending` and returns `False`,
no callback returns `None`. -/
def handle_task_request (tasks : TaskMap) (senderId : Json)
    (cb : Option (TaskRequestP → Except Unit Bool)) (p : TaskRequestP) :
    TaskMap × Option Bool :=
  let rec0 : TaskRec :=
    { sender := senderId, description := p.taskDescription, amount := p.amount,
      deadline := p.deadline, status := "pending" }
  let t1 := updTasks tasks p.escrowId rec0
  match cb with
  | none => (t1, none)
  | some f =>
      match f p with
      | .ok accepted =>
          (updTasks t1 p.escrowId
            { rec0 with status := if accepted then "accepted" else "rejected" },
           some accepted)
      | .error _ => (t1, some false)

/-- `handle_task_response`: update an existing record's status (and, when
truthy, its ETA); an unknown escrow id leaves the table untouched; the
response callback's exceptions are caught. -/
def handle_task_response (tasks : TaskMap)
    (cb : Option (TaskResponseP → Except Unit Unit)) (p : TaskResponseP) :
    TaskMap × Bool :=
  let t1 :=
    match tasks p.escrowId with
    | some r =>
        let r1 := { r with status := if p.accepted then "accepted" else "rejected" }
        let r2 :=
          match p.estCompletion with
          | some ec => if jfalsy ec then r1 else { r1 with estCompletion := some ec }
          | none => r1
        updTasks tasks p.escrowId r2
    | none => tasks
  (t1, cbRaised cb p)

/-- `handle_task_complete`: mark an existing record `completed` and store the
result; an unknown escrow id leaves the table untouched; the completion
callback's exceptions are caught after the update. -/
def handle_task_complete (tasks : TaskMap)
    (cb : Option (TaskCompleteP → Except Unit Unit)) (p : TaskCompleteP) :
    TaskMap × Bool :=
  let t1 :=
    match tasks p.escrowId with
    | some r =>
        updTasks tasks p.escrowId { r with status := "completed", result := some p.result }
    | none => tasks
  (t1, cbRaised cb p)

/-- `handle_payment`: mark an existing record `paid` and store the tx hash;
an unknown escrow id leaves the table untouched; the payment callback's
exceptions are caught after the update. -/
def handle_payment (tasks : TaskMap)
    (cb : Option (PaymentP → Except Unit Unit)) (p : PaymentP) :
    TaskMap × Bool :=
  let t1 :=
    match tasks p.escrowId with
    | some r =>
        updTasks tasks p.escrowId { r with status := "paid", txHash := some p.txHash }
    | none => tasks
  (t1, cbRaised cb p)

/-- A dispatched protocol event, as routed by `MessageTransport.handle_message`. -/
inductive Event where
  | request (senderId : Json) (p : TaskRequestP)
  | response (p : TaskResponseP)
  | complete (p : TaskCompleteP)
  | payment (p : PaymentP)

/-- The registered user callbacks. -/
structure Callbacks where
  onRequest : Option (TaskRequestP → Except Unit Bool) := none
  onResponse : Option (TaskResponseP → Except Unit Unit) := none
  onComplete : Option (TaskCompleteP → Except Unit Unit) := none
  onPayment : Option (PaymentP → Except Unit Unit) := none

/-- Dispatch one event to its handler (`handle_message` catches every handler
exception, so dispatch is total and returns the updated table). -/
def processEvent (cbs : Callbacks) (tasks : TaskMap) : Event → TaskMap
  | .request s p => (handle_task_request tasks s cbs.onRequest p).1
  | .response p => (handle_task_response tasks cbs.onResponse p).1
  | .complete p => (handle_task_complete tasks cbs.onComplete p).1
  | .payment p => (handle_payment tasks cbs.onPayment p).1

/-- The listening loop: dispatch a stream of incoming events in order. -/
def processEvents (cbs : Callbacks) (tasks : TaskMap) (evs : List Event) : TaskMap :=
  evs.foldl (processEvent cbs) tasks

/-! ### Specification predicates and concrete inputs used by the theorems -/

/-- Every decoded listing is a well-formed JSON object (a Python dict). -/
def allObjWf (items : List Json) : Prop :=
  ∀ p ∈ items, ∃ es, p = .obj es ∧ wfEntries es = true

/-- The per-topic listing array holds at most one entry per `agent_id` value. -/
def distinctIds (items : List Json) : Prop :=
  (items.map (fun p => pyGet p kAgentId)).Pairwise (fun a b => a ≠ b)

/-- The invariant `announce` maintains on the DHT: every stored value is the
dump of an array of well-formed listing objects deduplicated by `agent_id`. -/
def storeInv (st : Store) : Prop :=
  ∀ k raw, st k = some raw →
    ∃ items, raw = dumpJson (.arr items) ∧ allObjWf items ∧ distinctIds items

/-- A concrete well-formed message: `ping` with a payload holding an
`escrow_id`-style entry and an extra field no typed variant names. -/
def mWit : Message :=
  { type := .str [112, 105, 110, 103], sender := .str [97], recipient := .str [98],
    payload := .obj [([101], .str [101, 49]), ([120], .obj [([121], .num 3)])],
    timestamp := .num 1700000000, signature := .null }

/-- `mWit` with a different sender, for the tampering half of the signature
property. -/
def mWitTampered : Message :=
  { mWit with sender := .str [99] }

/-- A concrete message carrying a (fake) hex signature. -/
def mWitSigned : Message :=
  { mWit with signature := .str [97, 98] }

/-- The escrow id `"e1"` of the concrete task-lifecycle runs. -/
def eWit : Str := [101, 49]

/-- A concrete `TASK_COMPLETE` payload for escrow `"e1"`. -/
def cpWit : TaskCompleteP := { escrowId := eWit, result := .null }

/-- A concrete `TASK_REQUEST` payload for escrow `"e1"`. -/
def rqWit : TaskRequestP :=
  { escrowId := eWit, taskDescription := .null, amount := .null, deadline := .null }

/-- A concrete `PAYMENT_NOTIFICATION` payload for escrow `"e1"`. -/
def pyWit : PaymentP :=
  { escrowId := eWit, amount := .null, txHash := .str [104], fromAddr := .null,
    toAddr := .null }

/-- A concrete accepted task record. -/
def recWit : TaskRec :=
  { sender := .null, description := .null, amount := .null, deadline := .null,
    status := "accepted" }

/-- A task table holding only `recWit` under `"e1"`. -/
def tasksWit : TaskMap := updTasks (fun _ => none) eWit recWit

/-- A listing `{"agent_id": "a", "n": 1}`. -/
def infoWit1 : List (Str × Json) := [(kAgentId, .str [97]), ([110], .num 1)]

/-- A second listing for the same agent, `{"agent_id": "a", "n": 2}`. -/
def infoWit2 : List (Str × Json) := [(kAgentId, .str [97]), ([110], .num 2)]

/-- The topic `"t"`. -/
def topicWit : Str := [116]

/-! ## Lemmas: whitespace and numbers -/

theorem skipWs_cons_not {c : Nat} (r : Str) (h : isWsCp c = false) :
    skipWs (c :: r) = c :: r := by
  simp [skipWs, h]

theorem natToDec_digits : ∀ n : Nat, ∀ c ∈ natToDec n, isDigitCp c = true := by
  intro n
  induction n using Nat.strong_induction_on with
  | _ n ih =>
    rw [natToDec]
    by_cases h : n < 10
    · simp only [if_pos h]
      intro c hc
      rw [List.mem_singleton] at hc
      subst hc
      simp [isDigitCp]
      omega
    · simp only [if_neg h]
      intro c hc
      rw [List.mem_append] at hc
      rcases hc with hc | hc
      · exact ih (n / 10) (Nat.div_lt_self (by omega) (by omega)) c hc
      · rw [List.mem_singleton] at hc
        subst hc
        simp [isDigitCp]
        omega

theorem natToDec_ne_nil (n : Nat) : natToDec n ≠ [] := by
  rw [natToDec]
  by_cases h : n < 10 <;> simp [h]

theorem natToDec_head (n : Nat) :
    ∃ c t, natToDec n = c :: t ∧ isDigitCp c = true := by
  match h : natToDec n with
  | [] => exact absurd h (natToDec_ne_nil n)
  | c :: t =>
    exact ⟨c, t, rfl, natToDec_digits n c (h ▸ List.mem_cons_self c t)⟩

theorem takeDigits_stop (r : Str) (h : noDigitHead r = true) :
    takeDigits r = ([], r) := by
  match r with
  | [] => rfl
  | c :: t =>
    simp only [noDigitHead, Bool.not_eq_true'] at h
    simp [takeDigits, h]

theorem takeDigits_run (ds : Str) (r : Str)
    (hds : ∀ c ∈ ds, isDigitCp c = true) (hr : noDigitHead r = true) :
    takeDigits (ds ++ r) = (ds, r) := by
  induction ds with
  | nil => simpa using takeDigits_stop r hr
  | cons c t ih =>
    have hc : isDigitCp c = true := hds c (List.mem_cons_self c t)
    have ht := ih (fun x hx => hds x (List.mem_cons_of_mem c hx))
    simp [takeDigits, hc, ht]

theorem digitsVal_natToDec (n : Nat) : digitsVal (natToDec n) = n := by
  induction n using Nat.strong_induction_on with
  | _ n ih =>
    rw [natToDec]
    by_cases h : n < 10
    · simp [digitsVal, if_pos h]
    · simp only [if_neg h, digitsVal, List.foldl_append, List.foldl_cons, List.foldl_nil]
      have := ih (n / 10) (Nat.div_lt_self (by omega) (by omega))
      rw [digitsVal] at this
      rw [this]
      omega

theorem parseNumber_dump (n : Int) (rest : Str) (hr : noDigitHead rest = true) :
    parseNumber (intToDec n ++ rest) = some (n, rest) := by
  by_cases hn : n < 0
  · have harg : intToDec n ++ rest = 45 :: (natToDec n.natAbs ++ rest) := by
      simp [intToDec, hn]
    rw [harg]
    have ht := takeDigits_run (natToDec n.natAbs) rest (natToDec_digits _) hr
    have habs : -((digitsVal (natToDec n.natAbs) : Nat) : Int) = n := by
      rw [digitsVal_natToDec]
      omega
    simp [parseNumber, ht, natToDec_ne_nil, habs]
  · obtain ⟨c, t, hct, hc⟩ := natToDec_head n.natAbs
    have harg : intToDec n ++ rest = c :: (t ++ rest) := by
      simp [intToDec, hn, hct]
    rw [harg]
    have hc45 : ¬(c = 45) := by
      simp [isDigitCp] at hc
      omega
    have ht : takeDigits (c :: (t ++ rest)) = (c :: t, rest) := by
      have := takeDigits_run (natToDec n.natAbs) rest (natToDec_digits _) hr
      rw [hct] at this
      simpa using this
    have hv : ((digitsVal (c :: t) : Nat) : Int) = n := by
      have h2 := digitsVal_natToDec n.natAbs
      rw [hct] at h2
      rw [h2]
      omega
    simp [parseNumber, hc45, ht, hv]

/-! ## Lemmas: string escaping -/

theorem hexValCp_toHexCh (d : Nat) (h : d < 16) : hexValCp (toHexCh d) = some d := by
  interval_cases d <;> rfl

theorem parseStrBody_quote (r : Str) : parseStrBody (34 :: r) = some ([], r) := by
  rw [parseStrBody.eq_def]
  simp

theorem parseStrBody_esc2 (e u : Nat) (r : Str) (he : ¬(e = 117))
    (hu : unescapeCp e = some u) :
    parseStrBody (92 :: e :: r) =
      match parseStrBody r with
      | some (s2, r4) => some (u :: s2, r4)
      | none => none := by
  rw [parseStrBody.eq_def]
  simp [he, hu]

theorem parseStrBody_u (a b c2 d va vb vc vd : Nat) (r : Str)
    (ha : hexValCp a = some va) (hb : hexValCp b = some vb)
    (hc : hexValCp c2 = some vc) (hd : hexValCp d = some vd) :
    parseStrBody (92 :: 117 :: a :: b :: c2 :: d :: r) =
      match parseStrBody r with
      | some (s2, r4) => some ((((va * 16 + vb) * 16 + vc) * 16 + vd) :: s2, r4)
      | none => none := by
  rw [parseStrBody.eq_def]
  simp [ha, hb, hc, hd]

theorem parseStrBody_plain (c : Nat) (r : Str) (h34 : ¬(c = 34)) (h92 : ¬(c = 92)) :
    parseStrBody (c :: r) =
      match parseStrBody r with
      | some (s2, r4) => some (c :: s2, r4)
      | none => none := by
  rw [parseStrBody.eq_def]
  simp [h34, h92]

theorem parseStrBody_dump (s : Str) (rest : Str) (hw : s.all (· < 65536) = true) :
    parseStrBody (escStr s ++ 34 :: rest) = some (s, rest) := by
  induction s with
  | nil => simpa [escStr] using parseStrBody_quote rest
  | cons c cs ih =>
    simp only [List.all_cons, Bool.and_eq_true, decide_eq_true_eq] at hw
    have ihcs := ih hw.2
    have hmod : ∀ k : Nat, k % 16 < 16 := fun k => Nat.mod_lt _ (by omega)
    rw [escStr, List.append_assoc]
    by_cases h34 : c = 34
    · subst h34
      rw [show escapeCp 34 = [92, 34] from rfl]
      simp only [List.cons_append, List.nil_append]
      rw [parseStrBody_esc2 34 34 _ (by omega) rfl, ihcs]
    · by_cases h92 : c = 92
      · subst h92
        rw [show escapeCp 92 = [92, 92] from rfl]
        simp only [List.cons_append, List.nil_append]
        rw [parseStrBody_esc2 92 92 _ (by omega) rfl, ihcs]
      · by_cases h8 : c = 8
        · subst h8
          rw [show escapeCp 8 = [92, 98] from rfl]
          simp only [List.cons_append, List.nil_append]
          rw [parseStrBody_esc2 98 8 _ (by omega) rfl, ihcs]
        · by_cases h9 : c = 9
          · subst h9
            rw [show escapeCp 9 = [92, 116] from rfl]
            simp only [List.cons_append, List.nil_append]
            rw [parseStrBody_esc2 116 9 _ (by omega) rfl, ihcs]
          · by_cases h10 : c = 10
            · subst h10
              rw [show escapeCp 10 = [92, 110] from rfl]
              simp only [List.cons_append, List.nil_append]
              rw [parseStrBody_esc2 110 10 _ (by omega) rfl, ihcs]
            · by_cases h12 : c = 12
              · subst h12
                rw [show escapeCp 12 = [92, 102] from rfl]
                simp only [List.cons_append, List.nil_append]
                rw [parseStrBody_esc2 102 12 _ (by omega) rfl, ihcs]
              · by_cases h13 : c = 13
                · subst h13
                  rw [show escapeCp 13 = [92, 114] from rfl]
                  simp only [List.cons_append, List.nil_append]
                  rw [parseStrBody_esc2 114 13 _ (by omega) rfl, ihcs]
                · by_cases hesc : c < 32 ∨ 126 < c
                  · rw [escapeCp, if_neg h34, if_neg h92, if_neg h8, if_neg h9,
                        if_neg h10, if_neg h12, if_neg h13, if_pos hesc]
                    simp only [List.cons_append, List.nil_append]
                    rw [parseStrBody_u _ _ _ _ _ _ _ _ _
                          (hexValCp_toHexCh _ (hmod _)) (hexValCp_toHexCh _ (hmod _))
                          (hexValCp_toHexCh _ (hmod _)) (hexValCp_toHexCh _ (hmod _)),
                        ihcs]
                    have hval : ((c / 4096 % 16 * 16 + c / 256 % 16) * 16 + c / 16 % 16) * 16 +
                        c % 16 = c := by
                      have hc16 : c < 65536 := hw.1
                      omega
                    simp [hval]
                  · rw [escapeCp, if_neg h34, if_neg h92, if_neg h8, if_neg h9,
                        if_neg h10, if_neg h12, if_neg h13, if_neg hesc]
                    simp only [List.cons_append, List.nil_append]
                    rw [parseStrBody_plain c _ h34 h92, ihcs]

/-! ## Lemmas: parser dispatch on the first significant character -/

theorem parseVal_ws (fuel c : Nat) (s : Str) (h : isWsCp c = true) :
    parseVal fuel (c :: s) = parseVal fuel s := by
  cases fuel with
  | zero => rfl
  | succ f2 =>
    rw [parseVal.eq_def, parseVal.eq_def]
    simp [skipWs, h]

theorem parseItems_ws (fuel c : Nat) (s : Str) (h : isWsCp c = true) :
    parseItems fuel (c :: s) = parseItems fuel s := by
  cases fuel with
  | zero => rfl
  | succ f2 =>
    rw [parseItems.eq_def, parseItems.eq_def]
    simp [parseVal_ws f2 c s h]

theorem parseEntries_ws (fuel c : Nat) (s : Str) (h : isWsCp c = true) :
    parseEntries fuel (c :: s) = parseEntries fuel s := by
  cases fuel with
  | zero => rfl
  | succ f2 =>
    rw [parseEntries.eq_def, parseEntries.eq_def]
    simp [skipWs, h]

theorem parseVal_null (fuel : Nat) (r : Str) :
    parseVal (fuel + 1) (110 :: 117 :: 108 :: 108 :: r) = some (.null, r) := by
  rw [parseVal.eq_def]
  simp [skipWs, isWsCp]

theorem parseVal_true (fuel : Nat) (r : Str) :
    parseVal (fuel + 1) (116 :: 114 :: 117 :: 101 :: r) = some (.bool true, r) := by
  rw [parseVal.eq_def]
  simp [skipWs, isWsCp]

theorem parseVal_false (fuel : Nat) (r : Str) :
    parseVal (fuel + 1) (102 :: 97 :: 108 :: 115 :: 101 :: r) = some (.bool false, r) := by
  rw [parseVal.eq_def]
  simp [skipWs, isWsCp]

theorem parseVal_str (fuel : Nat) (r : Str) :
    parseVal (fuel + 1) (34 :: r) =
      match parseStrBody r with
      | some (s2, r2) => some (.str s2, r2)
      | none => none := by
  rw [parseVal.eq_def]
  simp [skipWs, isWsCp]

theorem parseVal_arr (fuel : Nat) (r : Str) :
    parseVal (fuel + 1) (91 :: r) =
      match skipWs r with
      | [] => none
      | d :: r2 =>
          if d = 93 then some (.arr [], r2)
          else
            match parseItems fuel (d :: r2) with
            | some (vs, r3) => some (.arr vs, r3)
            | none => none := by
  rw [parseVal.eq_def]
  simp [skipWs, isWsCp]

theorem parseVal_obj (fuel : Nat) (r : Str) :
    parseVal (fuel + 1) (123 :: r) =
      match skipWs r with
      | [] => none
      | d :: r2 =>
          if d = 125 then some (.obj [], r2)
          else
            match parseEntries fuel (d :: r2) with
            | some (es, r3) => some (.obj es, r3)
            | none => none := by
  rw [parseVal.eq_def]
  simp [skipWs, isWsCp]

theorem parseVal_num (fuel c : Nat) (r : Str) (h : isDigitCp c = true ∨ c = 45) :
    parseVal (fuel + 1) (c :: r) =
      match parseNumber (c :: r) with
      | some (n, r2) => some (.num n, r2)
      | none => none := by
  have hb : 48 ≤ c ∧ c ≤ 57 ∨ c = 45 := by
    rcases h with h | h
    · simp [isDigitCp] at h
      omega
    · omega
  have hnw : isWsCp c = false := by
    simp [isWsCp]
    omega
  rw [parseVal.eq_def]
  simp [skipWs_cons_not _ hnw, show ¬(c = 110) by omega, show ¬(c = 116) by omega,
    show ¬(c = 102) by omega, show ¬(c = 34) by omega,
    show ¬(c = 91) by omega, show ¬(c = 123) by omega]

/-! ## Lemmas: dump head shapes and fuel bounds -/

theorem jsize_pos (v : Json) : 1 ≤ jsize v := by
  cases v <;> simp only [jsize] <;> omega

theorem dumpJson_head (v : Json) :
    ∃ c t, dumpJson v = c :: t ∧ goodHead c = true := by
  cases v with
  | null => exact ⟨110, [117, 108, 108], by simp [dumpJson], by decide⟩
  | bool b =>
    cases b with
    | true => exact ⟨116, [114, 117, 101], by simp [dumpJson], by decide⟩
    | false => exact ⟨102, [97, 108, 115, 101], by simp [dumpJson], by decide⟩
  | num n =>
    by_cases hn : n < 0
    · exact ⟨45, natToDec n.natAbs, by simp [dumpJson, intToDec, hn], by decide⟩
    · obtain ⟨c, t, hct, hc⟩ := natToDec_head n.natAbs
      refine ⟨c, t, ?_, ?_⟩
      · simp [dumpJson, intToDec, hn, hct]
      · simp [goodHead, hc]
  | str s => exact ⟨34, escStr s ++ [34], by simp [dumpJson], by decide⟩
  | arr items => exact ⟨91, dumpItems items ++ [93], by simp [dumpJson], by decide⟩
  | obj es => exact ⟨123, dumpEntries es ++ [125], by simp [dumpJson], by decide⟩

theorem goodHead_facts (c : Nat) (h : goodHead c = true) :
    isWsCp c = false ∧ ¬(c = 93) ∧ ¬(c = 125) := by
  simp [goodHead, isDigitCp] at h
  refine ⟨?_, ?_, ?_⟩
  · simp [isWsCp]
    omega
  · omega
  · omega

theorem noDigitHead_items_rest (vs : List Json) (rest : Str) :
    noDigitHead (dumpItemsRest vs ++ 93 :: rest) = true := by
  cases vs <;> simp [dumpItemsRest, noDigitHead, isDigitCp]

theorem noDigitHead_entries_rest (es : List (Str × Json)) (rest : Str) :
    noDigitHead (dumpEntriesRest es ++ 125 :: rest) = true := by
  cases es with
  | nil => simp [dumpEntriesRest, noDigitHead, isDigitCp]
  | cons kv es2 =>
    obtain ⟨k, v⟩ := kv
    simp [dumpEntriesRest, noDigitHead, isDigitCp]

theorem skipWs_dump (v : Json) (x : Str) :
    skipWs (dumpJson v ++ x) = dumpJson v ++ x := by
  obtain ⟨c, t, hct, hc⟩ := dumpJson_head v
  rw [hct]
  simp only [List.cons_append]
  exact skipWs_cons_not _ ((goodHead_facts c hc).1)

mutual
theorem jsize_le : ∀ v : Json, jsize v ≤ (dumpJson v).length + 1
  | .null => by simp [jsize, dumpJson]
  | .bool b => by cases b <;> simp [jsize, dumpJson]
  | .num n => by simp [jsize]
  | .str s => by simp [jsize]
  | .arr items => by
      have := lsize_le_items items
      simp only [jsize, dumpJson, List.length_cons, List.length_append]
      omega
  | .obj es => by
      have := esize_le_entries es
      simp only [jsize, dumpJson, List.length_cons, List.length_append]
      omega
theorem lsize_le_items : ∀ l : List Json, lsize l ≤ (dumpItems l).length + 2
  | [] => by simp [lsize]
  | v :: vs => by
      have h1 := jsize_le v
      have h2 := lsize_le_rest vs
      simp only [lsize, dumpItems, List.length_append]
      omega
theorem lsize_le_rest : ∀ l : List Json, lsize l ≤ (dumpItemsRest l).length
  | [] => by simp [lsize, dumpItemsRest]
  | v :: vs => by
      have h1 := jsize_le v
      have h2 := lsize_le_rest vs
      simp only [lsize, dumpItemsRest, List.length_cons, List.length_append]
      omega
theorem esize_le_entries : ∀ es : List (Str × Json), esize es ≤ (dumpEntries es).length + 2
  | [] => by simp [esize]
  | (k, v) :: es => by
      have h1 := jsize_le v
      have h2 := esize_le_rest es
      simp only [esize, dumpEntries, List.length_append, List.length_cons]
      omega
theorem esize_le_rest : ∀ es : List (Str × Json), esize es ≤ (dumpEntriesRest es).length
  | [] => by simp [esize, dumpEntriesRest]
  | (k, v) :: es => by
      have h1 := jsize_le v
      have h2 := esize_le_rest es
      simp only [esize, dumpEntriesRest, List.length_append, List.length_cons]
      omega
end

theorem intToDec_head (n : Int) :
    ∃ c t, intToDec n = c :: t ∧ (isDigitCp c = true ∨ c = 45) := by
  by_cases hn : n < 0
  · exact ⟨45, natToDec n.natAbs, by simp [intToDec, hn], Or.inr rfl⟩
  · obtain ⟨c, t, hct, hc⟩ := natToDec_head n.natAbs
    exact ⟨c, t, by simp [intToDec, hn, hct], Or.inl hc⟩

theorem parseItems_succ (fuel : Nat) (s : Str) :
    parseItems (fuel + 1) s =
      match parseVal fuel s with
      | none => none
      | some (v, r) =>
        match skipWs r with
        | [] => none
        | d :: r2 =>
            if d = 44 then
              match parseItems fuel r2 with
              | some (vs, r3) => some (v :: vs, r3)
              | none => none
            else if d = 93 then some ([v], r2)
            else none := by
  rw [parseItems.eq_def]

theorem parseEntries_key (fuel : Nat) (r : Str) :
    parseEntries (fuel + 1) (34 :: r) =
      match parseStrBody r with
      | none => none
      | some (k, r1) =>
        match skipWs r1 with
        | [] => none
        | d :: r2 =>
            if d = 58 then
              match parseVal fuel r2 with
              | none => none
              | some (v, r3) =>
                match skipWs r3 with
                | [] => none
                | e2 :: r4 =>
                    if e2 = 44 then
                      match parseEntries fuel r4 with
                      | some (es, r5) => some ((k, v) :: es, r5)
                      | none => none
                    else if e2 = 125 then some ([(k, v)], r4)
                    else none
            else none := by
  rw [parseEntries.eq_def]
  simp [skipWs, isWsCp]

/-! ## The codec round trip: `parseVal` inverts `dumpJson` -/

mutual
theorem parseVal_dump : ∀ (fuel : Nat) (v : Json) (rest : Str),
    jsize v ≤ fuel → wfJson v = true → noDigitHead rest = true →
    parseVal fuel (dumpJson v ++ rest) = some (v, rest)
  | 0, v, _, hf, _, _ => absurd hf (by have := jsize_pos v; omega)
  | fuel + 1, v, rest, hf, hw, hr => by
      cases v with
      | null =>
          rw [show dumpJson .null ++ rest = 110 :: 117 :: 108 :: 108 :: rest by
                simp [dumpJson]]
          exact parseVal_null fuel rest
      | bool b =>
          cases b with
          | true =>
              rw [show dumpJson (.bool true) ++ rest = 116 :: 114 :: 117 :: 101 :: rest by
                    simp [dumpJson]]
              exact parseVal_true fuel rest
          | false =>
              rw [show dumpJson (.bool false) ++ rest =
                    102 :: 97 :: 108 :: 115 :: 101 :: rest by simp [dumpJson]]
              exact parseVal_false fuel rest
      | num n =>
          obtain ⟨c, t, hct, hc⟩ := intToDec_head n
          rw [show dumpJson (.num n) ++ rest = c :: (t ++ rest) by simp [dumpJson, hct]]
          rw [parseVal_num fuel c _ hc]
          rw [show c :: (t ++ rest) = intToDec n ++ rest by simp [hct]]
          rw [parseNumber_dump n rest hr]
      | str s =>
          rw [show dumpJson (.str s) ++ rest = 34 :: (escStr s ++ 34 :: rest) by
                simp [dumpJson]]
          rw [parseVal_str]
          rw [parseStrBody_dump s rest (by simpa [wfJson] using hw)]
      | arr items =>
          rw [show dumpJson (.arr items) ++ rest = 91 :: (dumpItems items ++ 93 :: rest) by
                simp [dumpJson]]
          rw [parseVal_arr]
          cases items with
          | nil => simp [dumpItems, skipWs, isWsCp]
          | cons w ws =>
              obtain ⟨c, t, hct, hc⟩ := dumpJson_head w
              obtain ⟨hws, h93, _⟩ := goodHead_facts c hc
              have hskip : skipWs (dumpItems (w :: ws) ++ 93 :: rest) =
                  c :: (t ++ (dumpItemsRest ws ++ 93 :: rest)) := by
                rw [show dumpItems (w :: ws) ++ 93 :: rest =
                      c :: (t ++ (dumpItemsRest ws ++ 93 :: rest)) by simp [dumpItems, hct]]
                exact skipWs_cons_not _ hws
              have hitems : parseItems fuel (c :: (t ++ (dumpItemsRest ws ++ 93 :: rest))) =
                  some (w :: ws, rest) := by
                rw [show c :: (t ++ (dumpItemsRest ws ++ 93 :: rest)) =
                      dumpItems (w :: ws) ++ 93 :: rest by simp [dumpItems, hct]]
                refine parseItems_dump fuel (w :: ws) rest (by simp) ?_ ?_
                · simp only [jsize] at hf
                  omega
                · simpa [wfJson] using hw
              rw [hskip]
              simp [h93, hitems]
      | obj es =>
          rw [show dumpJson (.obj es) ++ rest = 123 :: (dumpEntries es ++ 125 :: rest) by
                simp [dumpJson]]
          rw [parseVal_obj]
          cases es with
          | nil => simp [dumpEntries, skipWs, isWsCp]
          | cons kv es2 =>
              obtain ⟨k, w⟩ := kv
              have hskip : skipWs (dumpEntries ((k, w) :: es2) ++ 125 :: rest) =
                  34 :: (escStr k ++ 34 :: (58 :: 32 ::
                    (dumpJson w ++ (dumpEntriesRest es2 ++ 125 :: rest)))) := by
                rw [show dumpEntries ((k, w) :: es2) ++ 125 :: rest =
                      34 :: (escStr k ++ 34 :: (58 :: 32 ::
                        (dumpJson w ++ (dumpEntriesRest es2 ++ 125 :: rest)))) by
                      simp [dumpEntries]]
                exact skipWs_cons_not _ (by decide)
              have hentries : parseEntries fuel (34 :: (escStr k ++ 34 :: (58 :: 32 ::
                  (dumpJson w ++ (dumpEntriesRest es2 ++ 125 :: rest))))) =
                  some ((k, w) :: es2, rest) := by
                rw [show 34 :: (escStr k ++ 34 :: (58 :: 32 ::
                      (dumpJson w ++ (dumpEntriesRest es2 ++ 125 :: rest)))) =
                      dumpEntries ((k, w) :: es2) ++ 125 :: rest by simp [dumpEntries]]
                refine parseEntries_dump fuel ((k, w) :: es2) rest (by simp) ?_ ?_
                · simp only [jsize] at hf
                  omega
                · simpa [wfJson] using hw
              rw [hskip]
              simp [hentries]
theorem parseItems_dump : ∀ (fuel : Nat) (l : List Json) (rest : Str),
    l ≠ [] → lsize l ≤ fuel → wfList l = true →
    parseItems fuel (dumpItems l ++ 93 :: rest) = some (l, rest)
  | 0, l, _, hne, hf, _ => by
      cases l with
      | nil => exact absurd rfl hne
      | cons v vs =>
          exact absurd hf (by have := jsize_pos v; simp only [lsize]; omega)
  | fuel + 1, [], _, hne, _, _ => absurd rfl hne
  | fuel + 1, v :: vs, rest, _, hf, hw => by
      have hjw : wfJson v = true ∧ wfList vs = true := by
        simpa [wfList] using hw
      have hfv : jsize v ≤ fuel := by
        simp only [lsize] at hf
        omega
      have hpv := parseVal_dump fuel v (dumpItemsRest vs ++ 93 :: rest) hfv hjw.1
        (noDigitHead_items_rest vs rest)
      rw [show dumpItems (v :: vs) ++ 93 :: rest =
            dumpJson v ++ (dumpItemsRest vs ++ 93 :: rest) by simp [dumpItems]]
      rw [parseItems_succ, hpv]
      cases vs with
      | nil => simp [dumpItemsRest, skipWs, isWsCp]
      | cons w ws =>
          rw [show dumpItemsRest (w :: ws) ++ 93 :: rest =
                44 :: 32 :: (dumpItems (w :: ws) ++ 93 :: rest) by
                simp [dumpItemsRest, dumpItems]]
          have hrec : parseItems fuel (32 :: (dumpItems (w :: ws) ++ 93 :: rest)) =
              some (w :: ws, rest) := by
            rw [parseItems_ws fuel 32 _ (by decide)]
            refine parseItems_dump fuel (w :: ws) rest (by simp) ?_ hjw.2
            have := jsize_pos v
            simp only [lsize] at hf ⊢
            omega
          simp [skipWs, isWsCp, hrec]
theorem parseEntries_dump : ∀ (fuel : Nat) (es : List (Str × Json)) (rest : Str),
    es ≠ [] → esize es ≤ fuel → wfEntries es = true →
    parseEntries fuel (dumpEntries es ++ 125 :: rest) = some (es, rest)
  | 0, es, _, hne, hf, _ => by
      cases es with
      | nil => exact absurd rfl hne
      | cons kv es2 =>
          obtain ⟨k, v⟩ := kv
          exact absurd hf (by have := jsize_pos v; simp only [esize]; omega)
  | fuel + 1, [], _, hne, _, _ => absurd rfl hne
  | fuel + 1, (k, v) :: es2, rest, _, hf, hw => by
      have hjw : k.all (· < 65536) = true ∧ wfJson v = true ∧ wfEntries es2 = true := by
        simpa [wfEntries, and_assoc] using hw
      have hfv : jsize v ≤ fuel := by
        simp only [esize] at hf
        omega
      rw [show dumpEntries ((k, v) :: es2) ++ 125 :: rest =
            34 :: (escStr k ++ 34 :: (58 :: 32 ::
              (dumpJson v ++ (dumpEntriesRest es2 ++ 125 :: rest)))) by simp [dumpEntries]]
      rw [parseEntries_key, parseStrBody_dump k _ hjw.1]
      have hpv : parseVal fuel (32 :: (dumpJson v ++ (dumpEntriesRest es2 ++ 125 :: rest))) =
          some (v, dumpEntriesRest es2 ++ 125 :: rest) := by
        rw [parseVal_ws fuel 32 _ (by decide)]
        exact parseVal_dump fuel v _ hfv hjw.2.1 (noDigitHead_entries_rest es2 rest)
      cases es2 with
      | nil =>
          simp only [dumpEntriesRest, List.nil_append] at hpv ⊢
          simp [hpv, skipWs, isWsCp]
      | cons kv2 es3 =>
          obtain ⟨k2, v2⟩ := kv2
          have hrw : dumpEntriesRest ((k2, v2) :: es3) ++ 125 :: rest =
              44 :: 32 :: (dumpEntries ((k2, v2) :: es3) ++ 125 :: rest) := by
            simp [dumpEntriesRest, dumpEntries]
          rw [hrw] at hpv ⊢
          have hrec : parseEntries fuel (32 :: (dumpEntries ((k2, v2) :: es3) ++ 125 :: rest)) =
              some ((k2, v2) :: es3, rest) := by
            rw [parseEntries_ws fuel 32 _ (by decide)]
            refine parseEntries_dump fuel ((k2, v2) :: es3) rest (by simp) ?_ hjw.2.2
            have := jsize_pos v
            simp only [esize] at hf ⊢
            omega
          simp [hpv, skipWs, isWsCp, hrec]
end

theorem parseLoads_dump (v : Json) (hw : wfJson v = true) :
    parseLoads (dumpJson v) = some v := by
  have hfuel : jsize v ≤ (dumpJson v).length + 1 := jsize_le v
  have h := parseVal_dump ((dumpJson v).length + 1) v [] hfuel hw (by decide)
  rw [List.append_nil] at h
  simp [parseLoads, h, skipWs]

theorem dumpJson_inj (a b : Json) (ha : wfJson a = true) (hb : wfJson b = true)
    (h : dumpJson a = dumpJson b) : a = b := by
  have h1 := parseLoads_dump a ha
  have h2 := parseLoads_dump b hb
  rw [h, h2] at h1
  exact (Option.some.injEq _ _ ▸ h1).symm

/-! ## The dumped text is pure ASCII (so UTF-8 bytes equal code points) -/

theorem toHexCh_lt (k : Nat) (h : k < 16) : toHexCh k < 128 := by
  simp only [toHexCh]
  split <;> omega

theorem escapeCp_ascii (c : Nat) : ∀ x ∈ escapeCp c, x < 128 := by
  have hmod : ∀ k : Nat, k % 16 < 16 := fun k => Nat.mod_lt _ (by omega)
  simp only [escapeCp]
  repeat' split
  all_goals
    first
      | decide
      | (refine List.forall_mem_cons.mpr ⟨by omega, ?_⟩
         refine List.forall_mem_cons.mpr ⟨by omega, ?_⟩
         refine List.forall_mem_cons.mpr ⟨toHexCh_lt _ (hmod _), ?_⟩
         refine List.forall_mem_cons.mpr ⟨toHexCh_lt _ (hmod _), ?_⟩
         refine List.forall_mem_cons.mpr ⟨toHexCh_lt _ (hmod _), ?_⟩
         refine List.forall_mem_cons.mpr ⟨toHexCh_lt _ (hmod _), ?_⟩
         simp)
      | (intro x hx
         simp at hx
         subst hx
         omega)

theorem escStr_ascii (s : Str) : ∀ x ∈ escStr s, x < 128 := by
  induction s with
  | nil => simp [escStr]
  | cons c cs ih =>
    intro x hx
    simp only [escStr, List.mem_append] at hx
    rcases hx with hx | hx
    · exact escapeCp_ascii c x hx
    · exact ih x hx

theorem natToDec_ascii (n : Nat) : ∀ x ∈ natToDec n, x < 128 := by
  intro x hx
  have := natToDec_digits n x hx
  simp [isDigitCp] at this
  omega

theorem intToDec_ascii (n : Int) : ∀ x ∈ intToDec n, x < 128 := by
  intro x hx
  simp only [intToDec] at hx
  split at hx
  · simp at hx
    rcases hx with h | h
    · omega
    · exact natToDec_ascii _ x h
  · exact natToDec_ascii _ x hx

mutual
theorem dumpJson_ascii : ∀ v : Json, ∀ x ∈ dumpJson v, x < 128
  | .null => by decide
  | .bool b => by cases b <;> decide
  | .num n => by
      intro x hx
      exact intToDec_ascii n x (by simpa [dumpJson] using hx)
  | .str s => by
      rw [show dumpJson (.str s) = 34 :: (escStr s ++ [34]) by simp [dumpJson]]
      refine List.forall_mem_cons.mpr ⟨by omega, ?_⟩
      refine List.forall_mem_append.mpr ⟨escStr_ascii s, by decide⟩
  | .arr items => by
      rw [show dumpJson (.arr items) = 91 :: (dumpItems items ++ [93]) by simp [dumpJson]]
      refine List.forall_mem_cons.mpr ⟨by omega, ?_⟩
      refine List.forall_mem_append.mpr ⟨dumpItems_ascii items, by decide⟩
  | .obj es => by
      rw [show dumpJson (.obj es) = 123 :: (dumpEntries es ++ [125]) by simp [dumpJson]]
      refine List.forall_mem_cons.mpr ⟨by omega, ?_⟩
      refine List.forall_mem_append.mpr ⟨dumpEntries_ascii es, by decide⟩
theorem dumpItems_ascii : ∀ l : List Json, ∀ x ∈ dumpItems l, x < 128
  | [] => by simp [dumpItems]
  | v :: vs => by
      rw [show dumpItems (v :: vs) = dumpJson v ++ dumpItemsRest vs by simp [dumpItems]]
      exact List.forall_mem_append.mpr ⟨dumpJson_ascii v, dumpItemsRest_ascii vs⟩
theorem dumpItemsRest_ascii : ∀ l : List Json, ∀ x ∈ dumpItemsRest l, x < 128
  | [] => by simp [dumpItemsRest]
  | v :: vs => by
      rw [show dumpItemsRest (v :: vs) = 44 :: 32 :: (dumpJson v ++ dumpItemsRest vs) by
            simp [dumpItemsRest]]
      refine List.forall_mem_cons.mpr ⟨by omega, ?_⟩
      refine List.forall_mem_cons.mpr ⟨by omega, ?_⟩
      exact List.forall_mem_append.mpr ⟨dumpJson_ascii v, dumpItemsRest_ascii vs⟩
theorem dumpEntries_ascii : ∀ es : List (Str × Json), ∀ x ∈ dumpEntries es, x < 128
  | [] => by simp [dumpEntries]
  | (k, v) :: es => by
      rw [show dumpEntries ((k, v) :: es) =
            34 :: (escStr k ++ 34 :: 58 :: 32 :: (dumpJson v ++ dumpEntriesRest es)) by
            simp [dumpEntries]]
      refine List.forall_mem_cons.mpr ⟨by omega, ?_⟩
      refine List.forall_mem_append.mpr ⟨escStr_ascii k, ?_⟩
      refine List.forall_mem_cons.mpr ⟨by omega, ?_⟩
      refine List.forall_mem_cons.mpr ⟨by omega, ?_⟩
      refine List.forall_mem_cons.mpr ⟨by omega, ?_⟩
      exact List.forall_mem_append.mpr ⟨dumpJson_ascii v, dumpEntriesRest_ascii es⟩
theorem dumpEntriesRest_ascii : ∀ es : List (Str × Json), ∀ x ∈ dumpEntriesRest es, x < 128
  | [] => by simp [dumpEntriesRest]
  | (k, v) :: es => by
      rw [show dumpEntriesRest ((k, v) :: es) =
            44 :: 32 :: 34 :: (escStr k ++ 34 :: 58 :: 32 ::
              (dumpJson v ++ dumpEntriesRest es)) by simp [dumpEntriesRest]]
      refine List.forall_mem_cons.mpr ⟨by omega, ?_⟩
      refine List.forall_mem_cons.mpr ⟨by omega, ?_⟩
      refine List.forall_mem_cons.mpr ⟨by omega, ?_⟩
      refine List.forall_mem_append.mpr ⟨escStr_ascii k, ?_⟩
      refine List.forall_mem_cons.mpr ⟨by omega, ?_⟩
      refine List.forall_mem_cons.mpr ⟨by omega, ?_⟩
      refine List.forall_mem_cons.mpr ⟨by omega, ?_⟩
      exact List.forall_mem_append.mpr ⟨dumpJson_ascii v, dumpEntriesRest_ascii es⟩
end

theorem toBytes_ascii (m : Message) : ∀ x ∈ toBytes m, x < 128 :=
  dumpJson_ascii (.obj (msgEntries m))

/-! ## Hex signatures round-trip -/

theorem hexToBytes_bytesToHex (bs : Str) (h : ∀ x ∈ bs, x < 256) :
    hexToBytes (bytesToHex bs) = some bs := by
  induction bs with
  | nil => simp [bytesToHex, hexToBytes]
  | cons b t ih =>
    have hb : b < 256 := h b (List.mem_cons_self b t)
    have ht := ih (fun x hx => h x (List.mem_cons_of_mem b hx))
    rw [bytesToHex, hexToBytes]
    rw [hexValCp_toHexCh _ (Nat.mod_lt _ (by omega)),
        hexValCp_toHexCh _ (Nat.mod_lt _ (by omega)), ht]
    have : b / 16 % 16 * 16 + b % 16 = b := by omega
    simp [this]

/-! ## Message serialization round trip -/

theorem wfMsgObj (m : Message) (hw : wfMessage m = true) :
    wfJson (.obj (msgEntries m)) = true := by
  simp only [wfMessage, Bool.and_eq_true] at hw
  simp [wfJson, wfEntries, msgEntries, kType, kSender, kRecipient, kPayload,
    kTimestamp, kSignature, hw.1.1.1.1.1, hw.1.1.1.1.2, hw.1.1.1.2, hw.1.1.2,
    hw.1.2, hw.2]

theorem fromBytes_toBytes (m : Message) (hw : wfMessage m = true) :
    fromBytes (toBytes m) = some m := by
  have hparse : parseLoads (toBytes m) = some (.obj (msgEntries m)) :=
    parseLoads_dump (.obj (msgEntries m)) (wfMsgObj m hw)
  rw [fromBytes.eq_def, hparse]
  rfl

theorem wfMessage_stripSig (m : Message) (hw : wfMessage m = true) :
    wfMessage (stripSig m) = true := by
  simp only [wfMessage, Bool.and_eq_true] at hw
  simp [wfMessage, stripSig, wfJson, hw.1.1.1.1.1, hw.1.1.1.1.2, hw.1.1.1.2,
    hw.1.1.2, hw.1.2]

/-- Two messages whose canonical serializations coincide are equal, field for
field (serialization is injective on well-formed messages). -/
theorem toBytes_inj (a b : Message) (ha : wfMessage a = true) (hb : wfMessage b = true)
    (h : toBytes a = toBytes b) : a = b := by
  have hobj := dumpJson_inj (.obj (msgEntries a)) (.obj (msgEntries b))
    (wfMsgObj a ha) (wfMsgObj b hb) h
  simp only [msgEntries, Json.obj.injEq, List.cons.injEq, Prod.mk.injEq, and_true,
    true_and] at hobj
  obtain ⟨h1, h2, h3, h4, h5, h6⟩ := hobj
  cases a
  cases b
  simp_all

theorem bytesToHex_ne_nil (b : Nat) (t : Str) : bytesToHex (b :: t) ≠ [] := by
  simp [bytesToHex]

/-! ## Claims about the message protocol and signed transport -/

/-- C4: serialization round-trips exactly.  For every well-formed `Message`
(nested maps in the payload included), `from_bytes (to_bytes m)` re-creates
`m` field for field; the payload is carried as an open map, so entries not
named by any typed variant survive the round trip unchanged. -/
theorem claim_C4_serialization_roundtrip (m : Message) (hw : wfMessage m = true) :
    fromBytes (toBytes m) = some m :=
  fromBytes_toBytes m hw

theorem claim_C4_witness :
    wfMessage mWit = true ∧ fromBytes (toBytes mWit) = some mWit :=
  ⟨by decide, claim_C4_serialization_roundtrip mWit (by decide)⟩

/-- C3: for an Ed25519 interface that accepts exactly the signatures the
signer produced (`hcorrect`, `hstrict`), whose signatures are nonempty byte
strings (`hnonempty`, `hbytes`), `verify_message` accepts a freshly signed
well-formed message, and rejects it once any one of the fields `type`,
`sender`, `recipient`, `payload` or `timestamp` has been mutated (`m2` is the
mutated message carrying the original signature). -/
theorem claim_C3_sign_then_verify
    (eds : Str → Str) (edv : Str → Str → Bool)
    (hcorrect : ∀ b, edv b (eds b) = true)
    (hstrict : ∀ b s, edv b (eds s) = true → b = s)
    (hbytes : ∀ b, (∀ x ∈ b, x < 256) → ∀ x ∈ eds b, x < 256)
    (hnonempty : ∀ b, eds b ≠ [])
    (m m2 : Message) (hw : wfMessage m = true) (hw2 : wfMessage m2 = true)
    (hdiff : ¬(m2.type = m.type ∧ m2.sender = m.sender ∧ m2.recipient = m.recipient ∧
      m2.payload = m.payload ∧ m2.timestamp = m.timestamp)) :
    verify_message edv (sign_message eds m) = true ∧
    verify_message edv { m2 with signature := (sign_message eds m).signature } = false := by
  have hb256 : ∀ x ∈ toBytes (stripSig m), x < 256 := fun x hx => by
    have := toBytes_ascii (stripSig m) x hx
    omega
  have hσ256 := hbytes _ hb256
  have hhex : hexToBytes (bytesToHex (eds (toBytes (stripSig m)))) =
      some (eds (toBytes (stripSig m))) := hexToBytes_bytesToHex _ hσ256
  have hne : bytesToHex (eds (toBytes (stripSig m))) ≠ [] := by
    cases hh : eds (toBytes (stripSig m)) with
    | nil => exact absurd hh (hnonempty _)
    | cons a t => exact bytesToHex_ne_nil a t
  have hfalsy : jfalsy (.str (bytesToHex (eds (toBytes (stripSig m))))) = false := by
    simp [jfalsy, List.isEmpty_iff, hne]
  constructor
  · have hstrip : stripSig (sign_message eds m) = stripSig m := rfl
    have hsigproj : (sign_message eds m).signature =
        .str (bytesToHex (eds (toBytes (stripSig m)))) := rfl
    simp [verify_message, verifyAttempt, fromHexSig, hsigproj, hstrip, hfalsy,
      hhex, hcorrect]
  · have hstrip : stripSig { m2 with signature := (sign_message eds m).signature } =
        stripSig m2 := rfl
    have hrej : edv (toBytes (stripSig m2)) (eds (toBytes (stripSig m))) = false := by
      cases hedv : edv (toBytes (stripSig m2)) (eds (toBytes (stripSig m))) with
      | false => rfl
      | true =>
          exfalso
          have heq := hstrict _ _ hedv
          have := toBytes_inj (stripSig m2) (stripSig m)
            (wfMessage_stripSig m2 hw2) (wfMessage_stripSig m hw) heq
          apply hdiff
          have h1 : (stripSig m2).type = (stripSig m).type := by rw [this]
          have h2 : (stripSig m2).sender = (stripSig m).sender := by rw [this]
          have h3 : (stripSig m2).recipient = (stripSig m).recipient := by rw [this]
          have h4 : (stripSig m2).payload = (stripSig m).payload := by rw [this]
          have h5 : (stripSig m2).timestamp = (stripSig m).timestamp := by rw [this]
          simp only [stripSig] at h1 h2 h3 h4 h5
          exact ⟨h1, h2, h3, h4, h5⟩
    have hsigproj : (sign_message eds m).signature =
        .str (bytesToHex (eds (toBytes (stripSig m)))) := rfl
    have hstrip2 : ∀ x : Json, stripSig { m2 with signature := x } = stripSig m2 :=
      fun x => rfl
    simp [verify_message, verifyAttempt, fromHexSig, hsigproj, hstrip2, hfalsy,
      hhex, hrej]

theorem claim_C3_witness :
    (∀ b : Str, (fun s => s == 7 :: b) ((fun s => 7 :: s) b) = true) ∧
    wfMessage mWit = true ∧ wfMessage mWitTampered = true ∧
    verify_message (fun b s => s == 7 :: b) (sign_message (fun s => 7 :: s) mWit) = true ∧
    verify_message (fun b s => s == 7 :: b)
      { mWitTampered with signature := (sign_message (fun s => 7 :: s) mWit).signature } =
      false := by
  have h := claim_C3_sign_then_verify (fun s => 7 :: s) (fun b s => s == 7 :: b)
    (fun b => by simp)
    (fun b s hbs => by
      simp at hbs
      exact hbs.symm)
    (fun b hb x hx => by
      rcases List.mem_cons.mp hx with h | h
      · omega
      · exact hb x h)
    (fun b => by simp)
    mWit mWitTampered (by decide) (by decide)
    (by decide)
  exact ⟨fun b => by simp, by decide, by decide, h.1, h.2⟩

/-- C6: `verify_message` is a total boolean function — every exception of the
`try` body (missing/falsy signature, a non-string or non-hex signature, a
signature the Ed25519 check rejects) is caught and becomes `false`; it
returns `true` exactly when a non-falsy string signature hex-decodes and
verifies against the signature-stripped canonical bytes. -/
theorem claim_C6_verify_never_throws (edv : Str → Str → Bool) (m : Message) :
    verify_message edv m = true ↔
      jfalsy m.signature = false ∧
      ∃ s sb, m.signature = .str s ∧ hexToBytes s = some sb ∧
        edv (toBytes (stripSig m)) sb = true := by
  simp only [verify_message]
  by_cases hjf : jfalsy m.signature = true
  · simp [hjf]
  · have hj2 : jfalsy m.signature = false := by simpa using hjf
    simp only [if_neg hjf, verifyAttempt]
    cases hsig : m.signature with
    | str s =>
        rw [hsig] at hj2
        cases hhex : hexToBytes s with
        | none => simp [fromHexSig, hsig, hhex, hj2]
        | some sb =>
            by_cases hedv : edv (toBytes (stripSig m)) sb = true
            · simp [fromHexSig, hsig, hhex, hedv, hj2]
            · have hedv2 : edv (toBytes (stripSig m)) sb = false := by simpa using hedv
              simp [fromHexSig, hsig, hhex, hedv2, hj2]
    | null =>
        rw [hsig] at hj2
        simp [jfalsy] at hj2
    | bool b => simp [fromHexSig, hsig]
    | num n => simp [fromHexSig, hsig]
    | arr l => simp [fromHexSig, hsig]
    | obj es => simp [fromHexSig, hsig]

/-- C10: the two coexisting transports sign fresh messages identically: when
`signature` is `None`, the legacy transport (which signs the message's full
serialization) and the pure-Python one (which signs a signature-stripped
copy) serialize the same bytes, so they produce the same signed message; the
precondition is essential, because a message already carrying a signature
serializes differently from its stripped copy. -/
theorem claim_C10_transports_sign_equally (eds : Str → Str) (m m2 : Message)
    (h : m.signature = .null) (hw2 : wfMessage m2 = true) (h2 : m2.signature ≠ .null) :
    legacy_sign_message eds m = sign_message eds m ∧
    toBytes m2 ≠ toBytes (stripSig m2) := by
  constructor
  · have hstrip : stripSig m = m := by
      cases m
      simp_all [stripSig]
    rw [legacy_sign_message, sign_message, hstrip]
  · intro heq
    have := toBytes_inj m2 (stripSig m2) hw2 (wfMessage_stripSig m2 hw2) heq
    apply h2
    have : m2.signature = (stripSig m2).signature := by rw [← this]
    simpa [stripSig] using this

theorem claim_C10_witness :
    mWit.signature = .null ∧ wfMessage mWitSigned = true ∧ mWitSigned.signature ≠ .null ∧
    legacy_sign_message (fun s => 7 :: s) mWit = sign_message (fun s => 7 :: s) mWit ∧
    toBytes mWitSigned ≠ toBytes (stripSig mWitSigned) := by
  have h := claim_C10_transports_sign_equally (fun s => 7 :: s) mWit mWitSigned
    (by decide) (by decide) (by decide)
  exact ⟨by decide, by decide, by decide, h.1, h.2⟩

/-! ## Claims about identity derivation -/

/-- C2: identity derivation is deterministic — the same 32-byte master seed
always yields the same node id and wallet address — and, for any injective
hash and injective Ed25519 public-key map, distinct seeds yield distinct node
ids; the signing seed and wallet seed of one identity are distinct because
their domain-separation tags differ. -/
theorem claim_C2_identity_derivation
    (sha256 edPub evmAddr : Str → Str)
    (hsha : Function.Injective sha256) (hpub : Function.Injective edPub)
    (s1 s2 : Str) (h1 : s1.length = 32) (h2 : s2.length = 32) (hne : s1 ≠ s2) :
    (∀ a b : SeedManager, mkSeedManager sha256 edPub evmAddr s1 = .ok a →
        mkSeedManager sha256 edPub evmAddr s1 = .ok b →
        a.nodeId = b.nodeId ∧ a.walletAddress = b.walletAddress) ∧
    (∀ a b : SeedManager, mkSeedManager sha256 edPub evmAddr s1 = .ok a →
        mkSeedManager sha256 edPub evmAddr s2 = .ok b →
        a.nodeId ≠ b.nodeId ∧ a.p2pSeed ≠ a.walletSeed) := by
  constructor
  · intro a b ha hb
    rw [ha] at hb
    cases hb
    exact ⟨rfl, rfl⟩
  · intro a b ha hb
    simp [mkSeedManager, h1, h2] at ha hb
    subst ha
    subst hb
    constructor
    · intro hid
      dsimp only at hid
      have := hsha (hpub hid)
      exact hne (List.append_cancel_right this)
    · intro hseeds
      dsimp only at hseeds
      have := List.append_cancel_left (hsha hseeds)
      simp [tagP2p, tagWallet] at this

theorem claim_C2_witness :
    List.replicate 32 0 ≠ 1 :: List.replicate 31 0 ∧
    (∀ a b : SeedManager,
        mkSeedManager id id id (List.replicate 32 0) = .ok a →
        mkSeedManager id id id (List.replicate 32 0) = .ok b →
        a.nodeId = b.nodeId ∧ a.walletAddress = b.walletAddress) ∧
    (∀ a b : SeedManager,
        mkSeedManager id id id (List.replicate 32 0) = .ok a →
        mkSeedManager id id id (1 :: List.replicate 31 0) = .ok b →
        a.nodeId ≠ b.nodeId ∧ a.p2pSeed ≠ a.walletSeed) := by
  have h := claim_C2_identity_derivation id id id (fun a b hab => hab) (fun a b hab => hab)
    (List.replicate 32 0) (1 :: List.replicate 31 0) (by decide) (by decide) (by decide)
  exact ⟨by decide, h.1, h.2⟩

/-- C9: constructing the identity raises the seed-length error exactly on
inputs that are not 32 bytes wide: every other-length seed is rejected with
`"Seed must be exactly 32 bytes"`, and every 32-byte seed succeeds, deriving
the node id from the domain-separated hash of the seed. -/
theorem claim_C9_seed_length (sha256 edPub evmAddr : Str → Str) (s : Str) :
    (s.length ≠ 32 → mkSeedManager sha256 edPub evmAddr s =
      .error "Seed must be exactly 32 bytes") ∧
    (s.length = 32 → ∃ mgr, mkSeedManager sha256 edPub evmAddr s = .ok mgr ∧
      mgr.masterSeed = s ∧ mgr.nodeId = edPub (sha256 (s ++ tagP2p))) := by
  constructor
  · intro h
    simp [mkSeedManager, h]
  · intro h
    exact ⟨{ masterSeed := s, p2pSeed := sha256 (s ++ tagP2p),
             nodeId := edPub (sha256 (s ++ tagP2p)),
             walletSeed := sha256 (s ++ tagWallet),
             walletAddress := evmAddr (sha256 (s ++ tagWallet)) },
           by simp [mkSeedManager, h], rfl, rfl⟩

theorem claim_C9_witness :
    ((List.replicate 31 0).length ≠ 32 ∧
      mkSeedManager id id id (List.replicate 31 0) =
        .error "Seed must be exactly 32 bytes") ∧
    ((List.replicate 32 0).length = 32 ∧
      ∃ mgr, mkSeedManager id id id (List.replicate 32 0) = .ok mgr ∧
        mgr.masterSeed = List.replicate 32 0 ∧
        mgr.nodeId = id (id (List.replicate 32 0 ++ tagP2p))) :=
  ⟨⟨by decide, (claim_C9_seed_length id id id (List.replicate 31 0)).1 (by decide)⟩,
   ⟨by decide, (claim_C9_seed_length id id id (List.replicate 32 0)).2 (by decide)⟩⟩

/-! ## Claims about the peer directory -/

/-- C7: `discover_peers` reads the topic key and returns the decoded listing
array; an absent key and an undecodable value both yield the empty array, not
an error. -/
theorem claim_C7_discover_defensive (st : Store) (t : Str) :
    (st (dhtKey t) = none → discover_peers st t = .arr []) ∧
    (∀ raw, st (dhtKey t) = some raw → parseLoads raw = none →
      discover_peers st t = .arr []) ∧
    (∀ items, wfList items = true → st (dhtKey t) = some (dumpJson (.arr items)) →
      discover_peers st t = .arr items) := by
  refine ⟨?_, ?_, ?_⟩
  · intro h
    simp [discover_peers, h]
  · intro raw h hp
    simp only [discover_peers, h]
    split
    · rfl
    · simp [hp]
  · intro items hw hsome
    have hne : (dumpJson (.arr items)).isEmpty = false := by
      obtain ⟨c, t2, hct, -⟩ := dumpJson_head (.arr items)
      simp [hct]
    have hp : parseLoads (dumpJson (.arr items)) = some (.arr items) :=
      parseLoads_dump _ (by simpa [wfJson] using hw)
    simp [discover_peers, hsome, hne, hp]

theorem claim_C7_witness :
    (emptyStore (dhtKey topicWit) = none ∧
      discover_peers emptyStore topicWit = .arr []) ∧
    (updateStore emptyStore (dhtKey topicWit) [120] (dhtKey topicWit) = some [120] ∧
      parseLoads [120] = none ∧
      discover_peers (updateStore emptyStore (dhtKey topicWit) [120]) topicWit = .arr []) :=
  ⟨⟨rfl, (claim_C7_discover_defensive emptyStore topicWit).1 rfl⟩,
   ⟨rfl, rfl,
    (claim_C7_discover_defensive (updateStore emptyStore (dhtKey topicWit) [120])
      topicWit).2.1 [120] rfl rfl⟩⟩

theorem allObjWf_wfList (items : List Json) (h : allObjWf items) : wfList items = true := by
  induction items with
  | nil => rfl
  | cons p ps ih =>
    obtain ⟨es, rfl, hes⟩ := h p (List.mem_cons_self p ps)
    simp [wfList, wfJson, hes, ih (fun q hq => h q (List.mem_cons_of_mem _ hq))]

theorem filterPeers_eq (items : List Json) (myId : Option Json) (h : allObjWf items) :
    filterPeers items myId =
      some (items.filter (fun p => !(pyGet p kAgentId == some myId))) := by
  induction items with
  | nil => rfl
  | cons p ps ih =>
    obtain ⟨es, rfl, -⟩ := h p (List.mem_cons_self p ps)
    have ihs := ih (fun q hq => h q (List.mem_cons_of_mem _ hq))
    by_cases hid : dGet es kAgentId = myId <;>
      simp [filterPeers, pyGet, ihs, List.filter_cons, hid]

theorem storeInv_update (st : Store) (key : Str) (items2 : List Json)
    (hst : storeInv st) (hobj : allObjWf items2) (hdist : distinctIds items2) :
    storeInv (updateStore st key (dumpJson (.arr items2))) := by
  intro k raw hk
  simp only [updateStore] at hk
  split at hk
  · cases hk
    exact ⟨items2, rfl, hobj, hdist⟩
  · exact hst k raw hk

theorem dedup_append (kept : List Json) (info : List (Str × Json))
    (hwf : wfEntries info = true) (hobj : allObjWf kept) (hdist : distinctIds kept)
    (hnot : ∀ p ∈ kept, (pyGet p kAgentId == some (dGet info kAgentId)) = false) :
    allObjWf (kept ++ [Json.obj info]) ∧ distinctIds (kept ++ [Json.obj info]) ∧
    (kept ++ [Json.obj info]).filter
      (fun p => pyGet p kAgentId == some (dGet info kAgentId)) = [Json.obj info] := by
  refine ⟨?_, ?_, ?_⟩
  · intro p hp
    rcases List.mem_append.mp hp with hp | hp
    · exact hobj p hp
    · rw [List.mem_singleton] at hp
      exact ⟨info, hp, hwf⟩
  · rw [distinctIds, List.map_append, List.pairwise_append]
    refine ⟨hdist, by simp, ?_⟩
    intro a ha b hb
    simp only [List.map_cons, List.map_nil, List.mem_singleton] at hb
    subst hb
    rcases List.mem_map.mp ha with ⟨p, hp, rfl⟩
    have := hnot p hp
    simp only [pyGet, beq_eq_false_iff_ne, ne_eq] at this ⊢
    simpa [pyGet] using this
  · rw [List.filter_append]
    rw [List.filter_eq_nil_iff.mpr (by
      intro p hp
      simp [hnot p hp])]
    simp [pyGet]

theorem announceStep_inv (st : Store) (t : Str) (info : List (Str × Json))
    (hst : storeInv st) (hwf : wfEntries info = true) :
    ∃ st2, announceStep st t info = some st2 ∧ storeInv st2 ∧
      ∃ items2, st2 (dhtKey t) = some (dumpJson (.arr items2)) ∧ distinctIds items2 ∧
        items2.filter
          (fun p => pyGet p kAgentId == some (dGet info kAgentId)) = [Json.obj info] := by
  rcases hkey : st (dhtKey t) with _ | raw
  · have hprops := dedup_append [] info hwf (by intro p hp; cases hp)
      (by simp [distinctIds]) (by intro p hp; cases hp)
    refine ⟨updateStore st (dhtKey t) (dumpJson (.arr ([] ++ [Json.obj info]))), ?_, ?_, ?_⟩
    · simp [announceStep, hkey, filterPeers]
    · exact storeInv_update st (dhtKey t) _ hst hprops.1 hprops.2.1
    · exact ⟨[] ++ [Json.obj info], by simp [updateStore], hprops.2.1, hprops.2.2⟩
  · obtain ⟨items, hraw, hobj, hdist⟩ := hst (dhtKey t) raw hkey
    subst hraw
    have hne : (dumpJson (.arr items)).isEmpty = false := by
      obtain ⟨c, t2, hct, -⟩ := dumpJson_head (.arr items)
      simp [hct]
    have hp : parseLoads (dumpJson (.arr items)) = some (.arr items) :=
      parseLoads_dump _ (by simpa [wfJson] using allObjWf_wfList items hobj)
    have hfp := filterPeers_eq items (dGet info kAgentId) hobj
    set kept := items.filter (fun p => !(pyGet p kAgentId == some (dGet info kAgentId)))
      with hkept
    have hkobj : allObjWf kept := fun p hp2 => hobj p (List.mem_of_mem_filter hp2)
    have hkdist : distinctIds kept := by
      rw [distinctIds]
      exact List.Pairwise.sublist (List.Sublist.map _ (List.filter_sublist items)) hdist
    have hknot : ∀ p ∈ kept, (pyGet p kAgentId == some (dGet info kAgentId)) = false := by
      intro p hp2
      have := List.of_mem_filter hp2
      simpa using this
    have hprops := dedup_append kept info hwf hkobj hkdist hknot
    refine ⟨updateStore st (dhtKey t) (dumpJson (.arr (kept ++ [Json.obj info]))), ?_, ?_, ?_⟩
    · simp [announceStep, hkey, hne, hp, hfp]
    · exact storeInv_update st (dhtKey t) _ hst hprops.1 hprops.2.1
    · exact ⟨kept ++ [Json.obj info], by simp [updateStore], hprops.2.1, hprops.2.2⟩

theorem runFold_inv : ∀ (ops : List (Str × List (Str × Json))) (st : Store),
    storeInv st → (∀ op ∈ ops, wfEntries op.2 = true) →
    ∃ st2, ops.foldl
        (fun acc op =>
          match acc with
          | none => none
          | some s0 => announceStep s0 op.1 op.2)
        (some st) = some st2 ∧ storeInv st2 := by
  intro ops
  induction ops with
  | nil => exact fun st hst _ => ⟨st, rfl, hst⟩
  | cons op ops2 ih =>
    intro st hst hwf
    obtain ⟨st1, hstep, hinv1, -⟩ :=
      announceStep_inv st op.1 op.2 hst (hwf op (List.mem_cons_self op ops2))
    have := ih st1 hinv1 (fun q hq => hwf q (List.mem_cons_of_mem _ hq))
    simpa [List.foldl_cons, hstep] using this

/-- C5: along any sequence of `announce` calls against an initially empty
DHT, every topic's stored listing array stays deduplicated by `agent_id`
(pairwise-distinct ids), and after announcing `info` the array holds exactly
one entry with `info`'s `agent_id` — the entry just announced, so a repeat
announcement replaces the prior entry and its fields. -/
theorem claim_C5_announce_dedup (ops : List (Str × List (Str × Json))) (t : Str)
    (info : List (Str × Json))
    (hops : ∀ op ∈ ops, wfEntries op.2 = true) (hinfo : wfEntries info = true) :
    ∃ st st2, runAnnounces ops = some st ∧ announceStep st t info = some st2 ∧
      ∃ items2, st2 (dhtKey t) = some (dumpJson (.arr items2)) ∧ distinctIds items2 ∧
        items2.filter
          (fun p => pyGet p kAgentId == some (dGet info kAgentId)) = [Json.obj info] := by
  obtain ⟨st, hrun, hinv⟩ := runFold_inv ops emptyStore
    (by intro k raw h; simp [emptyStore] at h) hops
  obtain ⟨st2, hstep, -, items2, hval, hdist, hfilter⟩ :=
    announceStep_inv st t info hinv hinfo
  exact ⟨st, st2, hrun, hstep, items2, hval, hdist, hfilter⟩

theorem claim_C5_witness :
    (∀ op ∈ [(topicWit, infoWit1)], wfEntries op.2 = true) ∧ wfEntries infoWit2 = true ∧
    ∃ st st2, runAnnounces [(topicWit, infoWit1)] = some st ∧
      announceStep st topicWit infoWit2 = some st2 ∧
      ∃ items2, st2 (dhtKey topicWit) = some (dumpJson (.arr items2)) ∧
        distinctIds items2 ∧
        items2.filter
          (fun p => pyGet p kAgentId == some (dGet infoWit2 kAgentId)) = [Json.obj infoWit2] :=
  ⟨by decide, by decide,
   claim_C5_announce_dedup [(topicWit, infoWit1)] topicWit infoWit2 (by decide) (by decide)⟩

/-! ## Claims about the task coordinator -/

/-- C1 counterexample: the coordinator does NOT update-or-create a record for
a `TASK_COMPLETE` with an unknown escrow id — the message is dropped (no
record exists afterwards) — and when `TASK_COMPLETE` for `"e1"` is processed
before the `TASK_REQUEST`, the record ends in status `"pending"`, not
`"completed"`, refuting the claim at this concrete out-of-order run. -/
theorem claim_C1_counterexample :
    ((handle_task_complete (fun _ => none) none cpWit).1 eWit = none) ∧
    (((handle_task_request (handle_task_complete (fun _ => none) none cpWit).1
        (.str [97]) none rqWit).1 eWit).map TaskRec.status = some "pending") ∧
    ("pending" : String) ≠ "completed" := by
  refine ⟨rfl, rfl, by decide⟩

/-- C1 (amended): a `TASK_RESPONSE`/`TASK_COMPLETE`/`PAYMENT_NOTIFICATION`
whose escrow id has no record is processed without crashing but leaves the
task table unchanged (the update is skipped, no record is created), so the
final status depends on arrival order: `TASK_COMPLETE` before `TASK_REQUEST`
ends `"pending"` (the later request overwrites), while `TASK_REQUEST` before
`TASK_COMPLETE` ends `"completed"`. -/
theorem claim_C1_out_of_order (tasks : TaskMap)
    (cbC : Option (TaskCompleteP → Except Unit Unit))
    (cbR : Option (TaskResponseP → Except Unit Unit))
    (cbP : Option (PaymentP → Except Unit Unit))
    (p : TaskCompleteP) (r : TaskResponseP) (q : PaymentP)
    (senderId : Json) (req : TaskRequestP) :
    (tasks p.escrowId = none → (handle_task_complete tasks cbC p).1 = tasks) ∧
    (tasks r.escrowId = none → (handle_task_response tasks cbR r).1 = tasks) ∧
    (tasks q.escrowId = none → (handle_payment tasks cbP q).1 = tasks) ∧
    (req.escrowId = p.escrowId → tasks p.escrowId = none →
      (((handle_task_request (handle_task_complete tasks cbC p).1
          senderId none req).1 req.escrowId).map TaskRec.status = some "pending") ∧
      (((handle_task_complete (handle_task_request tasks senderId none req).1
          cbC p).1 p.escrowId).map TaskRec.status = some "completed")) := by
  refine ⟨?_, ?_, ?_, ?_⟩
  · intro h
    simp [handle_task_complete, h]
  · intro h
    simp [handle_task_response, h]
  · intro h
    simp [handle_payment, h]
  · intro heid hnone
    constructor
    · simp [handle_task_complete, hnone, handle_task_request, updTasks]
    · simp [handle_task_request, handle_task_complete, updTasks, heid]

theorem claim_C1_witness :
    tasksWit eWit ≠ none ∧ (fun _ => none : TaskMap) eWit = none ∧
    rqWit.escrowId = cpWit.escrowId ∧
    (((handle_task_request (handle_task_complete (fun _ => none) none cpWit).1
        (.str [97]) none rqWit).1 rqWit.escrowId).map TaskRec.status = some "pending") ∧
    (((handle_task_complete (handle_task_request (fun _ => none) (.str [97]) none
        rqWit).1 none cpWit).1 cpWit.escrowId).map TaskRec.status = some "completed") := by
  have h := (claim_C1_out_of_order (fun _ => none) none none none cpWit
    { escrowId := eWit, accepted := true } pyWit (.str [97]) rqWit).2.2.2 rfl rfl
  exact ⟨by decide, rfl, rfl, h.1, h.2⟩

/-- C8: the status update is applied before the callback runs and is kept
when the callback raises: after `TASK_COMPLETE` the record is `"completed"`
and after `PAYMENT_NOTIFICATION` it is `"paid"` whatever the callback did,
the resulting table equals the no-callback table, and the dispatch loop's
result is independent of the response/completion/payment callbacks entirely
(exceptions are caught, the loop keeps processing). -/
theorem claim_C8_callback_isolation (tasks : TaskMap) (rec1 rec2 : TaskRec)
    (cbC : TaskCompleteP → Except Unit Unit) (cbP : PaymentP → Except Unit Unit)
    (p : TaskCompleteP) (q : PaymentP)
    (hc : tasks p.escrowId = some rec1) (hq : tasks q.escrowId = some rec2) :
    (((handle_task_complete tasks (some cbC) p).1 p.escrowId).map TaskRec.status =
      some "completed") ∧
    ((handle_task_complete tasks (some cbC) p).1 =
      (handle_task_complete tasks none p).1) ∧
    (((handle_payment tasks (some cbP) q).1 q.escrowId).map TaskRec.status =
      some "paid") ∧
    ((handle_payment tasks (some cbP) q).1 = (handle_payment tasks none q).1) ∧
    (∀ (cbs cbs2 : Callbacks) (t0 : TaskMap) (evs : List Event),
      cbs.onRequest = cbs2.onRequest →
      processEvents cbs t0 evs = processEvents cbs2 t0 evs) := by
  refine ⟨?_, rfl, ?_, rfl, ?_⟩
  · simp [handle_task_complete, hc, updTasks]
  · simp [handle_payment, hq, updTasks]
  · intro cbs cbs2 t0 evs hreq
    induction evs generalizing t0 with
    | nil => rfl
    | cons ev evs2 ih =>
      have hone : processEvent cbs t0 ev = processEvent cbs2 t0 ev := by
        cases ev with
        | request s0 p0 => simp [processEvent, hreq]
        | response p0 => rfl
        | complete p0 => rfl
        | payment p0 => rfl
      simp only [processEvents, List.foldl_cons] at ih ⊢
      rw [hone]
      exact ih (processEvent cbs2 t0 ev)

theorem claim_C8_witness :
    tasksWit cpWit.escrowId = some recWit ∧ tasksWit pyWit.escrowId = some recWit ∧
    (((handle_task_complete tasksWit (some (fun _ => .error ())) cpWit).1
        cpWit.escrowId).map TaskRec.status = some "completed") ∧
    ((handle_task_complete tasksWit (some (fun _ => .error ())) cpWit).1 =
      (handle_task_complete tasksWit none cpWit).1) ∧
    (((handle_payment tasksWit (some (fun _ => .error ())) pyWit).1
        pyWit.escrowId).map TaskRec.status = some "paid") ∧
    ((handle_payment tasksWit (some (fun _ => .error ())) pyWit).1 =
      (handle_payment tasksWit none pyWit).1) ∧
    (∀ (cbs cbs2 : Callbacks) (t0 : TaskMap) (evs : List Event),
      cbs.onRequest = cbs2.onRequest →
      processEvents cbs t0 evs = processEvents cbs2 t0 evs) := by
  have h := claim_C8_callback_isolation tasksWit recWit recWit
    (fun _ => .error ()) (fun _ => .error ()) cpWit pyWit (by decide) (by decide)
  exact ⟨by decide, by decide, h.1, h.2.1, h.2.2.1, h.2.2.2.1, h.2.2.2.2⟩

end Hypha
